import Mathlib

/-!
Task lifecycle controller (main.go) and message-bus client (mqtt.go)

A shallow embedding of the `Task` / `TaskManager` controller of `main.go` and
of the connect, subscribe and reconnect logic of `mqtt.go`.

* A `Task` value carries the fields `id`, `running`, `stop` of the Go struct.
  The mutex and the condition variable are not data: every control operation
  and every pass of the worker through its loop check runs inside one critical
  section of `t.mu`, so each of them is one atomic step of the model.
* A control operation returns the updated task together with the effects it
  performed, in program order: a `fmt.Printf` line, the `go func()` statement,
  a `t.cond.Signal()` call.
* `Sys` puts one task together with the goroutines spawned for it, and
  `Sys.step` interleaves control calls with worker steps.
* A `TaskManager` holds `[]*Task`; pointers are references into a `Heap`.
  The goroutines only read the flags, so the heap is written by the control
  operations alone.
* For the locking discipline the same methods are embedded once more as
  sequences of primitive steps (`Prim`): lock, unlock, flag access, effect.
  `Conc` runs such sequences side by side, `Lock` blocking on a held mutex.
* `GetMqttClient` and `onConnectLost` take the outcomes of the `Connect` calls
  of the client library as an argument.

The four states of the lifecycle are read off the flags: Stopped is
`stop = true`; Running is `running = true, stop = false`; Idle and Paused are
both `running = false, stop = false` and differ only in whether a goroutine
has been spawned.
-/

namespace TaskCtl

/-! ## Data model -/

/-- The `Task` struct of `main.go` (lines 10-16), without `mu` and `cond`. -/
structure Task where
  id : Int
  running : Bool
  stop : Bool
  deriving DecidableEq

/-- The format strings of the `fmt.Printf` calls of `main.go`; the task id is
the single `%d` argument of each of them. -/
inductive Diag where
  /-- The line "Task %d is already running" (lines 35 and 84). -/
  | alreadyRunning
  /-- The line "Task %d is not running" (lines 70 and 99). -/
  | notRunning
  /-- The line "Task %d thread paused" (line 75). -/
  | threadPaused
  /-- The line "Task %d thread resumed" (line 90). -/
  | threadResumed
  /-- The line "Task %d is being stopped" (line 105). -/
  | beingStopped
  /-- The line "Task %d thread started" (line 41). -/
  | threadStarted
  /-- The line "Task %d thread stopped" (line 50). -/
  | threadStopped
  /-- The line "Task %d is running..." (line 55). -/
  | isRunning
  deriving DecidableEq

/-- The observable effects of the code, other than writes to the flags. -/
inductive Event where
  /-- A call `fmt.Printf(format, t.id)`. -/
  | print (id : Int) (d : Diag)
  /-- The statement `go func() { ... }()` of `Start`: one worker is spawned. -/
  | spawn
  /-- A call `t.cond.Signal()`. -/
  | signal
  deriving DecidableEq

/-- Number of workers spawned by a list of effects. -/
def spawnCount (es : List Event) : Nat :=
  es.count Event.spawn

/-- Number of `Signal` calls in a list of effects. -/
def signalCount (es : List Event) : Nat :=
  es.count Event.signal

/-- Number of lines printed by a list of effects. -/
def printCount (es : List Event) : Nat :=
  (es.filter fun e => match e with
    | Event.print _ _ => true
    | _ => false).length

/-! ## Task operations -/

/-- The function `NewTask` (lines 19-27). -/
def NewTask (id : Int) : Task :=
  { id := id, running := false, stop := false }

/-- The method `Task.Start` (lines 30-62): the caller's part. The body of the
goroutine is `workerCheck` / `Sys.workerStep`. -/
def Task.Start (t : Task) : Task × List Event :=
  if t.running then
    (t, [Event.print t.id Diag.alreadyRunning])
  else
    ({ t with running := true }, [Event.spawn])

/-- The method `Task.Pause` (lines 65-76). -/
def Task.Pause (t : Task) : Task × List Event :=
  if !t.running then
    (t, [Event.print t.id Diag.notRunning])
  else
    ({ t with running := false }, [Event.print t.id Diag.threadPaused])

/-- The method `Task.Resume` (lines 79-91). -/
def Task.Resume (t : Task) : Task × List Event :=
  if t.running then
    (t, [Event.print t.id Diag.alreadyRunning])
  else
    ({ t with running := true }, [Event.signal, Event.print t.id Diag.threadResumed])

/-- The method `Task.Stop` (lines 94-106). -/
def Task.Stop (t : Task) : Task × List Event :=
  if !t.running && !t.stop then
    (t, [Event.print t.id Diag.notRunning])
  else
    ({ t with stop := true }, [Event.signal, Event.print t.id Diag.beingStopped])

/-- The four control operations of a task. -/
inductive Op where
  | start
  | pause
  | resume
  | stop
  deriving DecidableEq

/-- Dispatch of a control operation to the method of `Task`. -/
def Task.apply (t : Task) : Op → Task × List Event
  | Op.start => t.Start
  | Op.pause => t.Pause
  | Op.resume => t.Resume
  | Op.stop => t.Stop

/-- A sequence of control calls on one task, made one after the other by one
caller: the final task, and all effects in order. -/
def Task.applyAll (t : Task) : List Op → Task × List Event
  | [] => (t, [])
  | o :: os =>
    let r := t.apply o
    let r2 := Task.applyAll r.1 os
    (r2.1, r.2 ++ r2.2)

/-! ## The worker loop -/

/-- What one pass of the worker through lines 43-56 does. -/
inductive WorkerAction where
  /-- The worker calls `t.cond.Wait()` (line 46). -/
  | wait
  /-- The worker prints "thread stopped", unlocks and breaks (lines 49-53). -/
  | exit
  /-- The worker prints "is running...", unlocks and sleeps (lines 55-59). -/
  | work
  deriving DecidableEq

/-- The loop check of the worker (lines 45-56), made with `t.mu` held: the
inner `for !t.stop && !t.running` guard, then the `if t.stop` test. -/
def workerCheck (t : Task) : WorkerAction :=
  if !t.stop && !t.running then WorkerAction.wait
  else if t.stop then WorkerAction.exit
  else WorkerAction.work

/-! ## One task together with its goroutines -/

/-- Where a goroutine spawned by `Start` stands. -/
inductive Pc where
  /-- Created by the `go` statement, line 41 not yet executed. -/
  | spawned
  /-- About to take `t.mu` and make the loop check: at the top of the outer
  `for` (line 43), or woken inside `Wait` and about to re-test line 45. -/
  | ready
  /-- Blocked in `t.cond.Wait()` (line 46), the mutex released. -/
  | waiting
  /-- In `time.Sleep(1 * time.Second)` (line 59), the mutex released. -/
  | working
  /-- Left the loop through `break` (line 52): the goroutine has ended. -/
  | exited
  deriving DecidableEq

/-- One task, the goroutines spawned for it in spawn order, the goroutines
blocked in `Wait` in arrival order, and everything printed or done so far. -/
structure Sys where
  task : Task
  workers : List Pc
  waitq : List Nat
  out : List Event
  deriving DecidableEq

/-- A task fresh from `NewTask`, no goroutine yet. -/
def Sys.init (id : Int) : Sys :=
  { task := NewTask id, workers := [], waitq := [], out := [] }

/-- The call `t.cond.Signal()`: the goroutine that has waited longest, if there
is one, is made runnable; with no waiter the call does nothing. -/
def Sys.wake (s : Sys) : Sys :=
  match s.waitq with
  | [] => s
  | i :: q => { s with workers := s.workers.set i Pc.ready, waitq := q }

/-- Carry out one effect of a control operation. -/
def Sys.perform (s : Sys) (e : Event) : Sys :=
  match e with
  | Event.print _ _ => { s with out := s.out ++ [e] }
  | Event.spawn => { s with workers := s.workers ++ [Pc.spawned], out := s.out ++ [e] }
  | Event.signal => { s.wake with out := s.out ++ [e] }

/-- A control call on the task of the system: the critical section of the
method, its effects carried out in program order. -/
def Sys.call (s : Sys) (o : Op) : Sys :=
  let r := s.task.apply o
  r.2.foldl Sys.perform { s with task := r.1 }

/-- One step of goroutine `i` (the body of `go func()`, lines 41-60). A
goroutine blocked in `Wait`, an ended one and an index that names no goroutine
take no step. -/
def Sys.workerStep (s : Sys) (i : Nat) : Sys :=
  match s.workers[i]? with
  | some Pc.spawned =>
    { s with workers := s.workers.set i Pc.ready,
             out := s.out ++ [Event.print s.task.id Diag.threadStarted] }
  | some Pc.ready =>
    match workerCheck s.task with
    | WorkerAction.wait =>
      { s with workers := s.workers.set i Pc.waiting, waitq := s.waitq ++ [i] }
    | WorkerAction.exit =>
      { s with workers := s.workers.set i Pc.exited,
               out := s.out ++ [Event.print s.task.id Diag.threadStopped] }
    | WorkerAction.work =>
      { s with workers := s.workers.set i Pc.working,
               out := s.out ++ [Event.print s.task.id Diag.isRunning] }
  | some Pc.working => { s with workers := s.workers.set i Pc.ready }
  | _ => s

/-- A scheduling decision: the controlling caller makes its next call, or
goroutine `i` takes its next step. -/
inductive Action where
  | call (o : Op)
  | worker (i : Nat)
  deriving DecidableEq

/-- One step of the system. -/
def Sys.step (s : Sys) : Action → Sys
  | Action.call o => s.call o
  | Action.worker i => s.workerStep i

/-- A finite schedule, executed from left to right. -/
def Sys.run (s : Sys) (as : List Action) : Sys :=
  as.foldl Sys.step s

/-- Number of goroutines spawned so far that have not left their loop. -/
def Sys.liveWorkers (s : Sys) : Nat :=
  (s.workers.filter fun p => decide (p ≠ Pc.exited)).length

/-! ## TaskManager -/

/-- A `*Task`: a reference to a task object. References are non-nil. -/
abbrev Ref := Nat

/-- The task objects, by reference. -/
abbrev Heap := Ref → Task

/-- The `TaskManager` struct (lines 109-112), without `mu`. -/
structure TaskManager where
  tasks : List Ref
  deriving DecidableEq

/-- The function `NewTaskManager` (lines 115-119). -/
def NewTaskManager : TaskManager :=
  { tasks := [] }

/-- The method `TaskManager.AddTask` (lines 122-127). It reads and writes the
slice only; no task object is touched. -/
def TaskManager.AddTask (tm : TaskManager) (task : Ref) : TaskManager :=
  { tm with tasks := tm.tasks ++ [task] }

/-- One method call issued by a broadcast: the receiver, the method, and the
effects of that call. -/
structure Issued where
  ref : Ref
  op : Op
  events : List Event
  deriving DecidableEq

/-- The loop `for _, task := range tm.tasks { task.M() }` shared by the four
broadcast methods: each call reads and writes the object its receiver points
to. -/
def forEachTask (o : Op) : List Ref → Heap → Heap × List Issued
  | [], h => (h, [])
  | r :: rs, h =>
    let res := (h r).apply o
    let rest := forEachTask o rs (Function.update h r res.1)
    (rest.1, { ref := r, op := o, events := res.2 } :: rest.2)

/-- The method `TaskManager.StartAll` (lines 130-137). -/
def TaskManager.StartAll (tm : TaskManager) (h : Heap) : Heap × List Issued :=
  forEachTask Op.start tm.tasks h

/-- The method `TaskManager.PauseAll` (lines 140-147). -/
def TaskManager.PauseAll (tm : TaskManager) (h : Heap) : Heap × List Issued :=
  forEachTask Op.pause tm.tasks h

/-- The method `TaskManager.ResumeAll` (lines 150-157). -/
def TaskManager.ResumeAll (tm : TaskManager) (h : Heap) : Heap × List Issued :=
  forEachTask Op.resume tm.tasks h

/-- The method `TaskManager.StopAll` (lines 160-167). -/
def TaskManager.StopAll (tm : TaskManager) (h : Heap) : Heap × List Issued :=
  forEachTask Op.stop tm.tasks h

/-- The broadcast method that issues `o`. -/
def TaskManager.broadcast (tm : TaskManager) (o : Op) (h : Heap) : Heap × List Issued :=
  match o with
  | Op.start => tm.StartAll h
  | Op.pause => tm.PauseAll h
  | Op.resume => tm.ResumeAll h
  | Op.stop => tm.StopAll h

/-- The control calls of a schedule, in order. -/
def callsOf : List Action → List Op
  | [] => []
  | Action.call o :: as => o :: callsOf as
  | Action.worker _ :: as => callsOf as

/-- The schedule in which only goroutines move: goroutine `i` for each `i` of
the list, in order. -/
def workerSteps (is : List Nat) : List Action :=
  is.map Action.worker

/-! ## The scenario of `main` -/

/-- Number of workers spawned for the object `r` by a list of issued calls. -/
def spawnsFor (r : Ref) (cs : List Issued) : Nat :=
  match cs with
  | [] => 0
  | c :: cs => (if c.ref = r then spawnCount c.events else 0) + spawnsFor r cs

/-- The heap after `manager.StartAll()` (line 184). -/
def afterStartAll (tm : TaskManager) (h : Heap) : Heap :=
  (tm.StartAll h).1

/-- The heap after `manager.PauseAll()` (line 190). -/
def afterPauseAll (tm : TaskManager) (h : Heap) : Heap :=
  (tm.PauseAll (afterStartAll tm h)).1

/-- The heap after `manager.ResumeAll()` (line 196). -/
def afterResumeAll (tm : TaskManager) (h : Heap) : Heap :=
  (tm.ResumeAll (afterPauseAll tm h)).1

/-- The heap after `manager.StopAll()` (line 202). -/
def afterStopAll (tm : TaskManager) (h : Heap) : Heap :=
  (tm.StopAll (afterResumeAll tm h)).1

/-- The objects made by `NewTask(1)`, `NewTask(2)`, `NewTask(3)` (lines
174-176), at the references 0, 1, 2. -/
def mainHeap : Heap :=
  fun r => NewTask (Int.ofNat r + 1)

/-- The manager of `main` after the three `AddTask` calls (lines 171-181). -/
def mainManager : TaskManager :=
  ((NewTaskManager.AddTask 0).AddTask 1).AddTask 2

/-! ## The message-bus client (mqtt.go) -/

/-- The `MQTT` struct of `mqtt.go` (lines 11-26); `Qos` is a `byte`. -/
structure MQTT where
  Username : String
  Password : String
  ClientId : String
  Host : String
  Port : String
  Topic : String
  Qos : Nat
  deriving DecidableEq

/-- The pieces of a string between its commas, as lists of characters: no
comma gives one piece, and the empty string gives one empty piece. -/
def splitComma : List Char → List (List Char)
  | [] => [[]]
  | c :: cs =>
    if c = ',' then [] :: splitComma cs
    else
      match splitComma cs with
      | [] => [[c]]
      | p :: ps => (c :: p) :: ps

/-- The call `strings.Split(s, ",")` of the Go standard library (line 47). -/
def Split (s : String) : List String :=
  (splitComma s.data).map String.mk

/-- A `map[string]byte`: the value stored under each key, if any. -/
abbrev Filters := String → Option Nat

/-- The statement `make(map[string]byte)` (line 48). -/
def emptyFilters : Filters :=
  fun _ => none

/-- The loop `for _, topic := range topics { filters[topic] = config.Qos }`
(lines 49-51), started from the map `m`. -/
def fillFilters (qos : Nat) (m : Filters) : List String → Filters
  | [] => m
  | topic :: rest => fillFilters qos (Function.update m topic (some qos)) rest

/-- What `GetMqttClient` has done when it returns: the options the client was
made with, the number of `Connect` calls made on the way, and the map handed
to `SubscribeMultiple`. -/
structure Subscribed where
  broker : String
  clientId : String
  username : String
  password : String
  autoReconnect : Bool
  connects : Nat
  filters : Filters

/-- The function `GetMqttClient` (lines 28-54). The list gives the outcome of
each successive `client.Connect()`, `true` when `token.Error()` is nil. On a
failure the function sleeps and calls itself (lines 41-45); on a success it
builds the filter map and subscribes (lines 47-53). When the list ends without
a success the function has not returned yet: `none`. The argument `made` is
not in the source: it counts the `Connect` calls of the enclosing calls. The
callback is handed on to `SubscribeMultiple` as it is and is left out. -/
def GetMqttClient (config : MQTT) (made : Nat) : List Bool → Option Subscribed
  | [] => none
  | false :: rest => GetMqttClient config (made + 1) rest
  | true :: _ =>
    some {
      broker := "tcp://" ++ config.Host ++ ":" ++ config.Port
      clientId := config.ClientId
      username := config.Username
      password := config.Password
      autoReconnect := true
      connects := made + 1
      filters := fillFilters config.Qos emptyFilters (Split config.Topic) }

/-- What `onConnectLost` does, in order. -/
inductive LostEvent where
  /-- The line "mqtt connect lost" (line 73). -/
  | lost
  /-- A call `client.Connect()` followed by `token.Wait()` (line 76). -/
  | connect
  /-- The line "reconnect successfully" (line 77). -/
  | reconnected
  /-- The line "reconnect failed" with the attempt number `i+1` (line 80). -/
  | failed (attempt : Nat)
  /-- The call `time.Sleep(10)` (line 81). -/
  | sleep
  deriving DecidableEq

/-- The loop `for i := 0; i < 5; i++` of `onConnectLost` (lines 75-83), from
the value `i` of the loop variable; `outcome i` says whether the `Connect` of
that iteration ends with a nil error. -/
def reconnectLoop (outcome : Nat → Bool) (i : Nat) : List LostEvent :=
  if i < 5 then
    if outcome i then
      [LostEvent.connect, LostEvent.reconnected]
    else
      LostEvent.connect :: LostEvent.failed (i + 1) :: LostEvent.sleep
        :: reconnectLoop outcome (i + 1)
  else
    []
termination_by 5 - i

/-- The function `onConnectLost` (lines 72-84). -/
def onConnectLost (outcome : Nat → Bool) : List LostEvent :=
  LostEvent.lost :: reconnectLoop outcome 0

/-- Number of `Connect` calls in a run of `onConnectLost`. -/
def connectCount (es : List LostEvent) : Nat :=
  es.count LostEvent.connect

/-! ## Locks

The same code once more, statement by statement: each method as the sequence
of lock operations, flag accesses and effects it executes. -/

/-- The two control flags of a task. -/
inductive Flag where
  | running
  | stop
  deriving DecidableEq

/-- The mutexes of the program: `t.mu` of the task object at a reference, and
`tm.mu` of the manager. -/
inductive Mutex where
  | task (r : Ref)
  | manager
  deriving DecidableEq

/-- One primitive step of a goroutine. -/
inductive Prim where
  /-- A call `Lock()` on a mutex. -/
  | lock (m : Mutex)
  /-- A call `Unlock()` on a mutex, also when it runs as a deferred call. -/
  | unlock (m : Mutex)
  /-- A read of a control flag of the task object at `r`. -/
  | read (r : Ref) (f : Flag)
  /-- A write of a control flag of the task object at `r`. -/
  | write (r : Ref) (f : Flag) (v : Bool)
  /-- A read of the slice `tm.tasks`. -/
  | readTasks
  /-- A write of the slice `tm.tasks`. -/
  | writeTasks
  /-- A `Printf`, the `go` statement or a `Signal`. -/
  | emit (e : Event)
  /-- Suspended inside `t.cond.Wait()`, between its unlock and its lock. -/
  | park (r : Ref)
  /-- The call `time.Sleep(1 * time.Second)` of the worker. -/
  | sleep
  deriving DecidableEq

/-- The steps of `Task.Start` (lines 31-39 and the deferred unlock) on the
object at `r`, when the flags it finds are those of `t`. -/
def StartSteps (r : Ref) (t : Task) : List Prim :=
  [Prim.lock (Mutex.task r), Prim.read r Flag.running] ++
  (if t.running then
    [Prim.emit (Event.print t.id Diag.alreadyRunning)]
  else
    [Prim.write r Flag.running true, Prim.emit Event.spawn]) ++
  [Prim.unlock (Mutex.task r)]

/-- The steps of `Task.Pause` (lines 66-75). -/
def PauseSteps (r : Ref) (t : Task) : List Prim :=
  [Prim.lock (Mutex.task r), Prim.read r Flag.running] ++
  (if !t.running then
    [Prim.emit (Event.print t.id Diag.notRunning)]
  else
    [Prim.write r Flag.running false, Prim.emit (Event.print t.id Diag.threadPaused)]) ++
  [Prim.unlock (Mutex.task r)]

/-- The steps of `Task.Resume` (lines 80-90). -/
def ResumeSteps (r : Ref) (t : Task) : List Prim :=
  [Prim.lock (Mutex.task r), Prim.read r Flag.running] ++
  (if t.running then
    [Prim.emit (Event.print t.id Diag.alreadyRunning)]
  else
    [Prim.write r Flag.running true, Prim.emit Event.signal,
     Prim.emit (Event.print t.id Diag.threadResumed)]) ++
  [Prim.unlock (Mutex.task r)]

/-- The steps of `Task.Stop` (lines 95-105). The guard `!t.running && !t.stop`
reads `stop` only when `running` is false. -/
def StopSteps (r : Ref) (t : Task) : List Prim :=
  [Prim.lock (Mutex.task r), Prim.read r Flag.running] ++
  (if !t.running then [Prim.read r Flag.stop] else []) ++
  (if !t.running && !t.stop then
    [Prim.emit (Event.print t.id Diag.notRunning)]
  else
    [Prim.write r Flag.stop true, Prim.emit Event.signal,
     Prim.emit (Event.print t.id Diag.beingStopped)]) ++
  [Prim.unlock (Mutex.task r)]

/-- The steps of a control operation. -/
def opSteps (r : Ref) (t : Task) : Op → List Prim
  | Op.start => StartSteps r t
  | Op.pause => PauseSteps r t
  | Op.resume => ResumeSteps r t
  | Op.stop => StopSteps r t

/-- The steps of the goroutine of `Start` from a loop check on (lines 43-60).
The list holds the flags the goroutine finds at each of its successive checks;
`top` says whether the check is made at the top of the outer loop, where the
mutex is taken first (line 43), or on return from `Wait`, which has taken it
again. The guard `!t.stop && !t.running` reads `running` only when `stop` is
false. -/
def workerFrom (r : Ref) : Bool → List Task → List Prim
  | _, [] => []
  | top, t :: rest =>
    (if top then [Prim.lock (Mutex.task r)] else []) ++
    [Prim.read r Flag.stop] ++
    (if !t.stop then [Prim.read r Flag.running] else []) ++
    (match workerCheck t with
      | WorkerAction.wait =>
        [Prim.unlock (Mutex.task r), Prim.park r, Prim.lock (Mutex.task r)]
          ++ workerFrom r false rest
      | WorkerAction.exit =>
        [Prim.read r Flag.stop, Prim.emit (Event.print t.id Diag.threadStopped),
         Prim.unlock (Mutex.task r)]
      | WorkerAction.work =>
        [Prim.read r Flag.stop, Prim.emit (Event.print t.id Diag.isRunning),
         Prim.unlock (Mutex.task r), Prim.sleep]
          ++ workerFrom r true rest)

/-- The steps of the goroutine of `Start` (lines 41-60) for a task with the
given id. -/
def workerTrace (r : Ref) (id : Int) (seen : List Task) : List Prim :=
  Prim.emit (Event.print id Diag.threadStarted) :: workerFrom r true seen

/-- The steps of the loop `for _, task := range tm.tasks { task.M() }`;
`seen j` holds the flags found by the call of iteration `j`. -/
def forEachSteps (o : Op) (seen : Nat → Task) : Nat → List Ref → List Prim
  | _, [] => []
  | j, r :: rs => opSteps r (seen j) o ++ forEachSteps o seen (j + 1) rs

/-- The steps of `StartAll`, `PauseAll`, `ResumeAll`, `StopAll` (lines
130-167): lock, the loop, the deferred unlock. -/
def TaskManager.broadcastSteps (tm : TaskManager) (o : Op) (seen : Nat → Task) : List Prim :=
  [Prim.lock Mutex.manager, Prim.readTasks] ++ forEachSteps o seen 0 tm.tasks ++
  [Prim.unlock Mutex.manager]

/-- The steps of `AddTask` (lines 123-126). -/
def AddTaskSteps : List Prim :=
  [Prim.lock Mutex.manager, Prim.readTasks, Prim.writeTasks, Prim.unlock Mutex.manager]

/-- The flags after the writes of a sequence of steps, in order. -/
def writesOf (t : Task) : List Prim → Task
  | [] => t
  | Prim.write _ Flag.running v :: ps => writesOf { t with running := v } ps
  | Prim.write _ Flag.stop v :: ps => writesOf { t with stop := v } ps
  | _ :: ps => writesOf t ps

/-- The effects of a sequence of steps, in order. -/
def emitsOf : List Prim → List Event
  | [] => []
  | Prim.emit e :: ps => e :: emitsOf ps
  | _ :: ps => emitsOf ps

/-- The mutex that guards what a step touches: the mutex of the task for a
flag, the mutex of the manager for the slice. -/
def Prim.needs : Prim → Option Mutex
  | Prim.read r _ => some (Mutex.task r)
  | Prim.write r _ _ => some (Mutex.task r)
  | Prim.readTasks => some Mutex.manager
  | Prim.writeTasks => some Mutex.manager
  | _ => none

/-- The mutexes held after a step, given those held before it. -/
def Prim.after (held : List Mutex) : Prim → List Mutex
  | Prim.lock m => m :: held
  | Prim.unlock m => held.filter fun x => decide (x ≠ m)
  | _ => held

/-- Whether a step is in order for a goroutine that holds `held`: it does not
lock a mutex it holds, it unlocks only a mutex it holds, and it touches a flag
or the slice only while it holds the guarding mutex. -/
def Prim.okWith (held : List Mutex) : Prim → Bool
  | Prim.lock m => !decide (m ∈ held)
  | Prim.unlock m => decide (m ∈ held)
  | p =>
    match p.needs with
    | none => true
    | some m => decide (m ∈ held)

/-- Whether every step of a sequence is in order for a goroutine that starts
it holding `held`. -/
def guarded (held : List Mutex) : List Prim → Bool
  | [] => true
  | p :: ps => p.okWith held && guarded (p.after held) ps

/-- The `Lock` calls of a sequence of steps: the mutex taken, and the mutexes
the goroutine holds at that moment. -/
def acquisitions (held : List Mutex) : List Prim → List (Mutex × List Mutex)
  | [] => []
  | p :: ps =>
    (match p with
      | Prim.lock m => [(m, held)]
      | _ => []) ++ acquisitions (p.after held) ps

/-- Goroutines running side by side: what each of them still has to execute,
and for each mutex the goroutine that holds it. -/
structure Conc where
  threads : List (List Prim)
  owner : Mutex → Option Nat

/-- All goroutines at their beginning, every mutex free. -/
def Conc.init (threads : List (List Prim)) : Conc :=
  { threads := threads, owner := fun _ => none }

/-- Whether a step can be executed now: `Lock` has to find its mutex free. -/
def Prim.enabled (owner : Mutex → Option Nat) : Prim → Bool
  | Prim.lock m => (owner m).isNone
  | _ => true

/-- The holders of the mutexes after goroutine `i` has executed a step. -/
def Prim.ownerAfter (owner : Mutex → Option Nat) (i : Nat) : Prim → Mutex → Option Nat
  | Prim.lock m => Function.update owner m (some i)
  | Prim.unlock m => Function.update owner m none
  | _ => owner

/-- Goroutine `i` executes its next step. `Lock` on a mutex that is held
blocks: the goroutine does not move. A finished goroutine and an index that
names no goroutine take no step. -/
def Conc.step (c : Conc) (i : Nat) : Conc :=
  match c.threads[i]? with
  | some (p :: ps) =>
    if p.enabled c.owner then
      { threads := c.threads.set i ps, owner := p.ownerAfter c.owner i }
    else c
  | _ => c

/-- A schedule: which goroutine moves at each moment. -/
def Conc.run (c : Conc) (sched : List Nat) : Conc :=
  sched.foldl Conc.step c

/-- The mutex that guards what goroutine `i` touches with its next step, when
that step touches a flag or the slice. -/
def Conc.nextNeeds (c : Conc) (i : Nat) : Option Mutex :=
  match c.threads[i]? with
  | some (p :: _) => p.needs
  | _ => none

/-- The mutexes held after a sequence of steps. -/
def heldAfter (held : List Mutex) (ps : List Prim) : List Mutex :=
  ps.foldl Prim.after held

/-- Every goroutine holds exactly the mutexes it owns, and what it still has to
execute is in order for a goroutine holding them. -/
def Conc.wellLocked (c : Conc) : Prop :=
  ∀ (i : Nat) (th : List Prim), c.threads[i]? = some th →
    ∃ held : List Mutex, guarded held th = true ∧ ∀ m : Mutex, m ∈ held ↔ c.owner m = some i

/-- The steps of one call of a method of `Task` or of `TaskManager`, for some
receiver and some flags found. -/
inductive CallTrace : List Prim → Prop where
  | op (r : Ref) (t : Task) (o : Op) : CallTrace (opSteps r t o)
  | broadcast (tm : TaskManager) (o : Op) (seen : Nat → Task) :
      CallTrace (tm.broadcastSteps o seen)
  | addTask : CallTrace AddTaskSteps

/-- What a goroutine of the program executes: the goroutine of a `Start` runs
the worker loop; any other goroutine makes calls of the methods, one after the
other. -/
inductive GoroutineTrace : List Prim → Prop where
  | worker (r : Ref) (id : Int) (seen : List Task) : GoroutineTrace (workerTrace r id seen)
  | caller (calls : List (List Prim)) (h : ∀ c ∈ calls, CallTrace c) :
      GoroutineTrace calls.flatten

/-! ## Lemmas on the task operations -/

theorem apply_id (t : Task) (o : Op) : (t.apply o).1.id = t.id := by
  cases o <;> simp only [Task.apply, Task.Start, Task.Pause, Task.Resume, Task.Stop] <;>
    split <;> rfl

/-- No control operation clears the stop flag. -/
theorem apply_stop_of_stop (t : Task) (o : Op) (h : t.stop = true) :
    (t.apply o).1.stop = true := by
  cases o <;> simp only [Task.apply, Task.Start, Task.Pause, Task.Resume, Task.Stop] <;>
    split <;> simp [h]

/-- Only `Stop` writes the stop flag. -/
theorem apply_stop_eq (t : Task) (o : Op) (h : o ≠ Op.stop) :
    (t.apply o).1.stop = t.stop := by
  cases o <;> first
    | exact absurd rfl h
    | (simp only [Task.apply, Task.Start, Task.Pause, Task.Resume]; split <;> rfl)

theorem applyAll_stop_of_stop (ops : List Op) (t : Task) (h : t.stop = true) :
    (t.applyAll ops).1.stop = true := by
  induction ops generalizing t with
  | nil => simpa [Task.applyAll] using h
  | cons o os ih =>
    simp only [Task.applyAll]
    exact ih _ (apply_stop_of_stop t o h)

/-- Applied twice in a row, a control operation leaves the task as one
application does. -/
theorem apply_apply (t : Task) (o : Op) :
    ((t.apply o).1.apply o).1 = (t.apply o).1 := by
  obtain ⟨i, r, s⟩ := t
  cases o <;> cases r <;> cases s <;> rfl

/-! ## Lemmas on the system -/

theorem wake_task (s : Sys) : s.wake.task = s.task := by
  unfold Sys.wake; split <;> rfl

theorem wake_length (s : Sys) : s.wake.workers.length = s.workers.length := by
  unfold Sys.wake; split <;> simp

theorem wake_noExit (s : Sys) (h : Pc.exited ∉ s.workers) : Pc.exited ∉ s.wake.workers := by
  unfold Sys.wake
  split
  · exact h
  · intro hm
    rcases List.mem_or_eq_of_mem_set hm with h1 | h1
    · exact h h1
    · cases h1

theorem perform_task (s : Sys) (e : Event) : (s.perform e).task = s.task := by
  cases e <;> simp [Sys.perform, wake_task]

theorem perform_length (s : Sys) (e : Event) :
    (s.perform e).workers.length = s.workers.length + spawnCount [e] := by
  cases e <;> simp [Sys.perform, wake_length, spawnCount]

theorem perform_noExit (s : Sys) (e : Event) (h : Pc.exited ∉ s.workers) :
    Pc.exited ∉ (s.perform e).workers := by
  cases e
  · simpa [Sys.perform] using h
  · simpa [Sys.perform] using h
  · simpa [Sys.perform] using wake_noExit s h

theorem performAll_task (es : List Event) (s : Sys) :
    (es.foldl Sys.perform s).task = s.task := by
  induction es generalizing s with
  | nil => rfl
  | cons e es ih => simp [List.foldl, ih, perform_task]

theorem performAll_length (es : List Event) (s : Sys) :
    (es.foldl Sys.perform s).workers.length = s.workers.length + spawnCount es := by
  induction es generalizing s with
  | nil => simp [spawnCount]
  | cons e es ih =>
    simp only [List.foldl, ih, perform_length]
    simp only [spawnCount, List.count_cons, List.count_nil]
    omega

theorem performAll_noExit (es : List Event) (s : Sys) (h : Pc.exited ∉ s.workers) :
    Pc.exited ∉ (es.foldl Sys.perform s).workers := by
  induction es generalizing s with
  | nil => exact h
  | cons e es ih => exact ih _ (perform_noExit s e h)

theorem call_task (s : Sys) (o : Op) : (s.call o).task = (s.task.apply o).1 := by
  simp [Sys.call, performAll_task]

theorem call_length (s : Sys) (o : Op) :
    (s.call o).workers.length = s.workers.length + spawnCount (s.task.apply o).2 := by
  simp [Sys.call, performAll_length]

theorem call_noExit (s : Sys) (o : Op) (h : Pc.exited ∉ s.workers) :
    Pc.exited ∉ (s.call o).workers := by
  unfold Sys.call
  exact performAll_noExit _ _ h

theorem workerStep_task (s : Sys) (i : Nat) : (s.workerStep i).task = s.task := by
  unfold Sys.workerStep
  split
  · rfl
  · split <;> rfl
  · rfl
  · rfl

theorem workerStep_length (s : Sys) (i : Nat) :
    (s.workerStep i).workers.length = s.workers.length := by
  unfold Sys.workerStep
  split
  · simp
  · split <;> simp
  · simp
  · rfl

/-- While the stop flag is clear, no goroutine leaves its loop. -/
theorem workerStep_noExit (s : Sys) (i : Nat) (hs : s.task.stop = false)
    (h : Pc.exited ∉ s.workers) : Pc.exited ∉ (s.workerStep i).workers := by
  have key : ∀ p : Pc, p ≠ Pc.exited → Pc.exited ∉ s.workers.set i p := by
    intro p hp hm
    rcases List.mem_or_eq_of_mem_set hm with h1 | h1
    · exact h h1
    · exact hp h1.symm
  unfold Sys.workerStep
  split
  · exact key _ (by decide)
  · split
    · exact key _ (by decide)
    · rename_i hc
      simp [workerCheck, hs] at hc
      split at hc <;> cases hc
    · exact key _ (by decide)
  · exact key _ (by decide)
  · exact h

theorem run_cons (s : Sys) (a : Action) (as : List Action) :
    s.run (a :: as) = (s.step a).run as := rfl

theorem run_task (as : List Action) (s : Sys) :
    (s.run as).task = (s.task.applyAll (callsOf as)).1 := by
  induction as generalizing s with
  | nil => rfl
  | cons a as ih =>
    cases a with
    | call o => simp [run_cons, ih, Sys.step, call_task, callsOf, Task.applyAll]
    | worker i => simp [run_cons, ih, Sys.step, workerStep_task, callsOf]

theorem run_length (as : List Action) (s : Sys) :
    (s.run as).workers.length
      = s.workers.length + spawnCount (s.task.applyAll (callsOf as)).2 := by
  induction as generalizing s with
  | nil => simp [Sys.run, callsOf, Task.applyAll, spawnCount]
  | cons a as ih =>
    cases a with
    | call o =>
      simp only [run_cons, ih, Sys.step, call_task, call_length, callsOf, Task.applyAll,
        spawnCount, List.count_append]
      omega
    | worker i => simp [run_cons, ih, Sys.step, workerStep_task, workerStep_length, callsOf]

theorem run_stop_false (as : List Action) (s : Sys) (h : (s.run as).task.stop = false) :
    s.task.stop = false := by
  cases hs : s.task.stop with
  | false => rfl
  | true =>
    rw [run_task, applyAll_stop_of_stop _ _ hs] at h
    cases h

theorem run_noExit (as : List Action) (s : Sys) (hs : (s.run as).task.stop = false)
    (h : Pc.exited ∉ s.workers) : Pc.exited ∉ (s.run as).workers := by
  induction as generalizing s with
  | nil => exact h
  | cons a as ih =>
    rw [run_cons] at hs ⊢
    apply ih _ hs
    cases a with
    | call o => exact call_noExit s o h
    | worker i =>
      have h1 := run_stop_false as _ hs
      simp only [Sys.step, workerStep_task] at h1
      exact workerStep_noExit s i h1 h

theorem liveWorkers_of_noExit (s : Sys) (h : Pc.exited ∉ s.workers) :
    s.liveWorkers = s.workers.length := by
  unfold Sys.liveWorkers
  rw [List.filter_eq_self.mpr]
  intro p hp
  simp only [decide_eq_true_eq]
  rintro rfl
  exact h hp

theorem callsOf_append (as bs : List Action) :
    callsOf (as ++ bs) = callsOf as ++ callsOf bs := by
  induction as with
  | nil => rfl
  | cons a as ih => cases a <;> simp [callsOf, ih]

theorem callsOf_workerSteps (is : List Nat) : callsOf (workerSteps is) = [] := by
  induction is with
  | nil => rfl
  | cons i is ih => simpa [workerSteps, callsOf] using ih

/-- While the stop flag is clear at the end of a schedule, every goroutine
spawned during the schedule is still alive at its end. -/
theorem liveWorkers_run_init (id : Int) (as : List Action)
    (hs : ((NewTask id).applyAll (callsOf as)).1.stop = false) :
    ((Sys.init id).run as).liveWorkers
      = spawnCount ((NewTask id).applyAll (callsOf as)).2 := by
  have h0 : Pc.exited ∉ (Sys.init id).workers := by simp [Sys.init]
  have h1 : ((Sys.init id).run as).task.stop = false := by
    rw [run_task]; exact hs
  rw [liveWorkers_of_noExit _ (run_noExit as _ h1 h0), run_length]
  simp [Sys.init]

/-- A goroutine blocked in `Wait` takes no step, and neither does an index
that names no goroutine. -/
theorem workerStep_of_all_waiting (s : Sys) (i : Nat)
    (h : ∀ p ∈ s.workers, p = Pc.waiting) : s.workerStep i = s := by
  unfold Sys.workerStep
  cases hi : s.workers[i]? with
  | none => rfl
  | some p =>
    have hp : p = Pc.waiting := h p (List.getElem?_mem hi)
    subst hp
    rfl

theorem run_workerSteps_of_all_waiting (is : List Nat) (s : Sys)
    (h : ∀ p ∈ s.workers, p = Pc.waiting) : s.run (workerSteps is) = s := by
  induction is with
  | nil => rfl
  | cons i is ih =>
    have : s.run (workerSteps (i :: is)) = (s.workerStep i).run (workerSteps is) := rfl
    rw [this, workerStep_of_all_waiting s i h, ih]

theorem wake_getElem_ready (s : Sys) (i : Nat) (h : s.workers[i]? = some Pc.ready) :
    s.wake.workers[i]? = some Pc.ready := by
  unfold Sys.wake
  split
  · exact h
  · rename_i j q _
    simp only [List.getElem?_set]
    split
    · subst_vars
      obtain ⟨hlt, -⟩ := List.getElem?_eq_some.mp h
      simp [hlt]
    · exact h

/-- A goroutine about to make its loop check leaves the loop when the stop flag
is set. -/
theorem workerStep_ready_of_stop (s : Sys) (i : Nat) (hs : s.task.stop = true)
    (h : s.workers[i]? = some Pc.ready) :
    (s.workerStep i).workers[i]? = some Pc.exited := by
  obtain ⟨hlt, -⟩ := List.getElem?_eq_some.mp h
  simp [Sys.workerStep, h, workerCheck, hs, hlt]

/-! ## Lemmas on the broadcast loop -/

theorem forEachTask_refs (o : Op) (rs : List Ref) (h : Heap) :
    (forEachTask o rs h).2.map (fun c => (c.ref, c.op)) = rs.map (fun r => (r, o)) := by
  induction rs generalizing h with
  | nil => rfl
  | cons r rs ih => simp [forEachTask, ih]

/-- The heap after the loop: every object the list points to has received the
operation, every other object is untouched. -/
theorem forEachTask_heap (o : Op) (rs : List Ref) (h : Heap) (r : Ref) :
    (forEachTask o rs h).1 r = if r ∈ rs then ((h r).apply o).1 else h r := by
  induction rs generalizing h with
  | nil => simp [forEachTask]
  | cons r0 rs ih =>
    simp only [forEachTask, ih, List.mem_cons]
    by_cases hr : r = r0
    · subst hr
      by_cases hm : r ∈ rs
      · simp [hm, apply_apply]
      · simp [hm]
    · by_cases hm : r ∈ rs
      · simp [hm, hr, Function.update_noteq hr]
      · simp [hm, hr, Function.update_noteq hr]

/-- The calls issued by the loop over a list without repetition: each call
acts on the object as it was before the loop. -/
theorem forEachTask_issued (o : Op) (rs : List Ref) (h : Heap) (hn : rs.Nodup) :
    (forEachTask o rs h).2
      = rs.map (fun r => { ref := r, op := o, events := ((h r).apply o).2 }) := by
  induction rs generalizing h with
  | nil => rfl
  | cons r0 rs ih =>
    have hn2 := List.nodup_cons.mp hn
    simp only [forEachTask, List.map_cons, ih _ hn2.2]
    congr 1
    apply List.map_congr_left
    intro r hr
    have : r ≠ r0 := fun e => hn2.1 (e ▸ hr)
    simp [Function.update_noteq this]

theorem broadcast_eq (tm : TaskManager) (o : Op) (h : Heap) :
    tm.broadcast o h = forEachTask o tm.tasks h := by
  cases o <;> rfl

/-! ## Lemmas on the scenario -/

theorem spawnCount_apply (t : Task) (o : Op) (ho : o ≠ Op.start) :
    spawnCount (t.apply o).2 = 0 := by
  cases o
  · exact absurd rfl ho
  all_goals
    simp only [Task.apply, Task.Pause, Task.Resume, Task.Stop]
    split <;> simp [spawnCount]

theorem spawnsFor_forEachTask_other (o : Op) (ho : o ≠ Op.start) (rs : List Ref) (h : Heap)
    (r : Ref) : spawnsFor r (forEachTask o rs h).2 = 0 := by
  induction rs generalizing h with
  | nil => rfl
  | cons r0 rs ih =>
    simp only [forEachTask, spawnsFor, ih, spawnCount_apply _ o ho]
    simp

/-- The loop of `StartAll` spawns one worker for every registered object whose
running flag is clear, however often the object is registered. -/
theorem spawnsFor_forEachTask_start (rs : List Ref) (h : Heap) (r : Ref) :
    spawnsFor r (forEachTask Op.start rs h).2
      = if r ∈ rs ∧ (h r).running = false then 1 else 0 := by
  induction rs generalizing h with
  | nil => simp [forEachTask, spawnsFor]
  | cons r0 rs ih =>
    simp only [forEachTask, spawnsFor, ih, List.mem_cons]
    by_cases hr : r0 = r
    · subst hr
      cases hrun : (h r0).running <;>
        simp [Task.apply, Task.Start, hrun, spawnCount]
    · have hr2 : r ≠ r0 := fun e => hr e.symm
      simp [hr, hr2, Function.update_noteq hr2]

/-! ## Lemmas on the message-bus client -/

theorem fillFilters_apply (qos : Nat) (topics : List String) (m : Filters) (k : String) :
    fillFilters qos m topics k = if k ∈ topics then some qos else m k := by
  induction topics generalizing m with
  | nil => simp [fillFilters]
  | cons t ts ih =>
    simp only [fillFilters, ih, List.mem_cons]
    by_cases h1 : k ∈ ts
    · simp [h1]
    · by_cases h2 : k = t
      · subst h2
        simp [h1]
      · simp [h1, h2, Function.update_noteq h2]

theorem GetMqttClient_of_success (config : MQTT) (outcomes : List Bool) (made : Nat)
    (hok : true ∈ outcomes) :
    ∃ c, GetMqttClient config made outcomes = some c ∧
      c.filters = fillFilters config.Qos emptyFilters (Split config.Topic) ∧
      c.connects = made + (outcomes.takeWhile fun b => !b).length + 1 := by
  induction outcomes generalizing made with
  | nil => cases hok
  | cons b bs ih =>
    cases b with
    | true => exact ⟨_, rfl, rfl, by simp⟩
    | false =>
      have hok2 : true ∈ bs := by simpa using hok
      obtain ⟨c, h1, h2, h3⟩ := ih (made + 1) hok2
      refine ⟨c, by simpa [GetMqttClient] using h1, h2, ?_⟩
      rw [h3]
      simp
      omega

theorem reconnectLoop_done (outcome : Nat → Bool) (i : Nat) (h : 5 ≤ i) :
    reconnectLoop outcome i = [] := by
  rw [reconnectLoop, if_neg (by omega)]

theorem reconnectLoop_ok (outcome : Nat → Bool) (i : Nat) (h : i < 5) (ho : outcome i = true) :
    reconnectLoop outcome i = [LostEvent.connect, LostEvent.reconnected] := by
  rw [reconnectLoop, if_pos h, if_pos ho]

theorem reconnectLoop_fail (outcome : Nat → Bool) (i : Nat) (h : i < 5)
    (ho : outcome i = false) :
    reconnectLoop outcome i
      = LostEvent.connect :: LostEvent.failed (i + 1) :: LostEvent.sleep
          :: reconnectLoop outcome (i + 1) := by
  rw [reconnectLoop, if_pos h, if_neg (by simp [ho])]

/-- From iteration `i` on, the loop makes at most `5 - i` calls. -/
theorem connectCount_loop_le (outcome : Nat → Bool) (n i : Nat) (h : i + n = 5) :
    connectCount (reconnectLoop outcome i) ≤ n := by
  induction n generalizing i with
  | zero => simp [reconnectLoop_done outcome i (by omega), connectCount]
  | succ n ih =>
    cases ho : outcome i with
    | true =>
      rw [reconnectLoop_ok outcome i (by omega) ho]
      simp [connectCount]
    | false =>
      rw [reconnectLoop_fail outcome i (by omega) ho]
      have := ih (i + 1) (by omega)
      simp only [connectCount, List.count_cons] at this ⊢
      simp
      omega

/-- When every remaining attempt fails, the loop makes all `5 - i` calls. -/
theorem connectCount_loop_all_fail (outcome : Nat → Bool) (n i : Nat) (h : i + n = 5)
    (hf : ∀ j, i ≤ j → j < 5 → outcome j = false) :
    connectCount (reconnectLoop outcome i) = n := by
  induction n generalizing i with
  | zero => simp [reconnectLoop_done outcome i (by omega), connectCount]
  | succ n ih =>
    rw [reconnectLoop_fail outcome i (by omega) (hf i (le_refl _) (by omega))]
    have := ih (i + 1) (by omega) (fun j h1 h2 => hf j (by omega) h2)
    simp only [connectCount, List.count_cons] at this ⊢
    simp
    omega

/-- When the first success from iteration `i` on is at iteration `k`, the loop
makes `k - i + 1` calls and ends with the success line. -/
theorem reconnectLoop_first_success (outcome : Nat → Bool) (k : Nat) (hk : k < 5)
    (hok : outcome k = true) (d i : Nat) (hd : i + d = k)
    (hf : ∀ j, i ≤ j → j < k → outcome j = false) :
    connectCount (reconnectLoop outcome i) = d + 1 ∧
    (reconnectLoop outcome i).getLast? = some LostEvent.reconnected := by
  induction d generalizing i with
  | zero =>
    have : i = k := by omega
    subst this
    rw [reconnectLoop_ok outcome i hk hok]
    simp [connectCount]
  | succ d ih =>
    rw [reconnectLoop_fail outcome i (by omega) (hf i (le_refl _) (by omega))]
    obtain ⟨h1, h2⟩ := ih (i + 1) (by omega) (fun j h1 h2 => hf j (by omega) h2)
    constructor
    · simp only [connectCount, List.count_cons] at h1 ⊢
      simp
      omega
    · cases hl : reconnectLoop outcome (i + 1) with
      | nil => rw [hl] at h2; simp at h2
      | cons e es =>
        rw [hl] at h2
        simpa [List.getLast?_cons_cons] using h2

/-! ## Lemmas on locks -/

theorem guarded_append (a b : List Prim) (held : List Mutex) :
    guarded held (a ++ b) = (guarded held a && guarded (heldAfter held a) b) := by
  induction a generalizing held with
  | nil => simp [guarded, heldAfter]
  | cons p ps ih => simp [guarded, heldAfter, ih, Bool.and_assoc]

theorem acquisitions_append (a b : List Prim) (held : List Mutex) :
    acquisitions held (a ++ b) = acquisitions held a ++ acquisitions (heldAfter held a) b := by
  induction a generalizing held with
  | nil => simp [acquisitions, heldAfter]
  | cons p ps ih => simp [acquisitions, heldAfter, ih]

theorem heldAfter_append (a b : List Prim) (held : List Mutex) :
    heldAfter held (a ++ b) = heldAfter (heldAfter held a) b := by
  simp [heldAfter]

theorem filter_ne_of_not_mem (held : List Mutex) (m : Mutex) (h : m ∉ held) :
    (m :: held).filter (fun x => decide (x ≠ m)) = held := by
  have hne : ∀ a ∈ held, ¬a = m := fun a ha e => h (e ▸ ha)
  simpa using hne

/-- A control operation called by a goroutine that does not hold the mutex of
the task: every step is in order, the mutexes held at the end are those held
at the beginning, and the single `Lock` is the one on the mutex of the task. -/
theorem opSteps_locks (r : Ref) (t : Task) (o : Op) (held : List Mutex)
    (h : Mutex.task r ∉ held) :
    guarded held (opSteps r t o) = true ∧
    heldAfter held (opSteps r t o) = held ∧
    acquisitions held (opSteps r t o) = [(Mutex.task r, held)] := by
  have hne : ∀ a ∈ held, ¬a = Mutex.task r := fun a ha e => h (e ▸ ha)
  obtain ⟨i, a, b⟩ := t
  cases o <;> cases a <;> cases b <;>
    simp [opSteps, StartSteps, PauseSteps, ResumeSteps, StopSteps, guarded, Prim.okWith,
      Prim.after, Prim.needs, heldAfter, acquisitions, h] <;>
    exact hne

/-- The goroutine of `Start` takes and releases the mutex of its task only, and
touches the flags only while it holds it. -/
theorem workerFrom_locks (r : Ref) (seen : List Task) :
    (guarded [] (workerFrom r true seen) = true ∧
      guarded [Mutex.task r] (workerFrom r false seen) = true) ∧
    ((∀ a ∈ acquisitions [] (workerFrom r true seen), a = (Mutex.task r, [])) ∧
      (∀ a ∈ acquisitions [Mutex.task r] (workerFrom r false seen), a = (Mutex.task r, []))) := by
  induction seen with
  | nil => simp [workerFrom, guarded, acquisitions]
  | cons t rest ih =>
    obtain ⟨⟨g1, g2⟩, a1, a2⟩ := ih
    obtain ⟨i, a, b⟩ := t
    cases a <;> cases b <;>
      simp [workerFrom, workerCheck, guarded, acquisitions, Prim.okWith, Prim.after, Prim.needs,
        g1, g2] <;>
      first
        | (intro a b hab; simpa using a2 _ hab)
        | (intro a b hab; simpa using a1 _ hab)

/-- The loop of a broadcast, run with the mutex of the manager held. -/
theorem forEachSteps_locks (o : Op) (seen : Nat → Task) (rs : List Ref) (j : Nat) :
    guarded [Mutex.manager] (forEachSteps o seen j rs) = true ∧
    heldAfter [Mutex.manager] (forEachSteps o seen j rs) = [Mutex.manager] ∧
    acquisitions [Mutex.manager] (forEachSteps o seen j rs)
      = rs.map (fun r => (Mutex.task r, [Mutex.manager])) := by
  induction rs generalizing j with
  | nil => simp [forEachSteps, guarded, heldAfter, acquisitions]
  | cons r rs ih =>
    obtain ⟨h1, h2, h3⟩ := opSteps_locks r (seen j) o [Mutex.manager] (by simp)
    obtain ⟨i1, i2, i3⟩ := ih (j + 1)
    simp only [forEachSteps, guarded_append, heldAfter_append, acquisitions_append, h1, h2, h3,
      i1, i2, i3]
    simp

/-- The steps of a control operation write the flags and produce the effects
that the operation has as a function on tasks. -/
theorem opSteps_apply (r : Ref) (t : Task) (o : Op) :
    writesOf t (opSteps r t o) = (t.apply o).1 ∧ emitsOf (opSteps r t o) = (t.apply o).2 := by
  obtain ⟨i, a, b⟩ := t
  cases o <;> cases a <;> cases b <;> exact ⟨rfl, rfl⟩

theorem after_ownerAfter (p : Prim) (held : List Mutex) (owner : Mutex → Option Nat)
    (i : Nat) (hown : ∀ m : Mutex, m ∈ held ↔ owner m = some i) :
    ∀ m : Mutex, m ∈ p.after held ↔ p.ownerAfter owner i m = some i := by
  intro m
  cases p <;> try exact hown m
  · rename_i m0
    by_cases hm : m = m0
    · subst hm
      simp [Prim.after, Prim.ownerAfter]
    · simp [Prim.after, Prim.ownerAfter, hm, Function.update_noteq hm, hown m]
  · rename_i m0
    by_cases hm : m = m0
    · subst hm
      simp [Prim.after, Prim.ownerAfter]
    · simp [Prim.after, Prim.ownerAfter, hm, Function.update_noteq hm, hown m]

theorem other_owner_after (p : Prim) (held heldj : List Mutex) (owner : Mutex → Option Nat)
    (i j : Nat) (hij : j ≠ i) (hok : p.okWith held = true) (hen : p.enabled owner = true)
    (hown : ∀ m : Mutex, m ∈ held ↔ owner m = some i)
    (hownj : ∀ m : Mutex, m ∈ heldj ↔ owner m = some j) :
    ∀ m : Mutex, m ∈ heldj ↔ p.ownerAfter owner i m = some j := by
  intro m
  cases p <;> try exact hownj m
  · rename_i m0
    by_cases hm : m = m0
    · subst hm
      have h1 : owner m = none := by simpa [Prim.enabled] using hen
      have h2 : m ∉ heldj := by rw [hownj, h1]; simp
      simp [Prim.ownerAfter, h2, hij.symm]
    · simp [Prim.ownerAfter, Function.update_noteq hm, hownj m]
  · rename_i m0
    by_cases hm : m = m0
    · subst hm
      have h1 : owner m = some i := by
        rw [← hown]
        simpa [Prim.okWith] using hok
      have h2 : m ∉ heldj := by
        rw [hownj, h1]
        simp [hij.symm]
      simp [Prim.ownerAfter, h2]
    · simp [Prim.ownerAfter, Function.update_noteq hm, hownj m]

theorem wellLocked_init (threads : List (List Prim))
    (h : ∀ th ∈ threads, guarded [] th = true) : (Conc.init threads).wellLocked := by
  intro i th hth
  exact ⟨[], h th (List.getElem?_mem hth), by simp [Conc.init]⟩

theorem wellLocked_step (c : Conc) (i0 : Nat) (h : c.wellLocked) : (c.step i0).wellLocked := by
  unfold Conc.step
  split
  · rename_i p ps h0
    split
    · rename_i hen
      obtain ⟨held0, hg0, hown0⟩ := h i0 (p :: ps) h0
      simp only [guarded, Bool.and_eq_true] at hg0
      obtain ⟨hlt, -⟩ := List.getElem?_eq_some.mp h0
      intro i th hth
      by_cases hi : i = i0
      · subst hi
        simp only [List.getElem?_set, if_true, hlt, Option.some.injEq] at hth
        subst hth
        exact ⟨p.after held0, hg0.2, after_ownerAfter p held0 c.owner i hown0⟩
      · have hth2 : c.threads[i]? = some th := by
          simpa [List.getElem?_set, Ne.symm hi] using hth
        obtain ⟨heldj, hgj, hownj⟩ := h i th hth2
        exact ⟨heldj, hgj, other_owner_after p held0 heldj c.owner i0 i hi hg0.1 hen hown0 hownj⟩
    · exact h
  · exact h

theorem wellLocked_run (sched : List Nat) (c : Conc) (h : c.wellLocked) :
    (c.run sched).wellLocked := by
  induction sched generalizing c with
  | nil => exact h
  | cons i is ih => exact ih _ (wellLocked_step c i h)

/-- In a well-locked state, a goroutine whose next step touches a flag or the
slice holds the guarding mutex. -/
theorem owner_of_nextNeeds (c : Conc) (h : c.wellLocked) (i : Nat) (m : Mutex)
    (hn : c.nextNeeds i = some m) : c.owner m = some i := by
  unfold Conc.nextNeeds at hn
  split at hn
  · rename_i p ps h0
    obtain ⟨held, hg, hown⟩ := h i (p :: ps) h0
    simp only [guarded, Bool.and_eq_true] at hg
    rw [← hown]
    cases p <;> simp_all [Prim.needs, Prim.okWith]
  · cases hn

/-- A broadcast called by a goroutine that holds no mutex. -/
theorem broadcastSteps_locks (tm : TaskManager) (o : Op) (seen : Nat → Task) :
    guarded [] (tm.broadcastSteps o seen) = true ∧
    heldAfter [] (tm.broadcastSteps o seen) = [] ∧
    acquisitions [] (tm.broadcastSteps o seen)
      = (Mutex.manager, []) :: tm.tasks.map (fun r => (Mutex.task r, [Mutex.manager])) := by
  obtain ⟨h1, h2, h3⟩ := forEachSteps_locks o seen tm.tasks 0
  have e1 : heldAfter [] [Prim.lock Mutex.manager, Prim.readTasks] = [Mutex.manager] := rfl
  refine ⟨?_, ?_, ?_⟩
  · simp only [TaskManager.broadcastSteps, guarded_append, heldAfter_append, e1, h1, h2]
    decide
  · simp only [TaskManager.broadcastSteps, heldAfter_append, e1, h2]
    decide
  · simp only [TaskManager.broadcastSteps, acquisitions_append, heldAfter_append, e1, h2, h3]
    simp [acquisitions, Prim.after]

/-- A call made by a goroutine that holds no mutex: every step is in order and
no mutex is held when the call returns. -/
theorem callTrace_locks (c : List Prim) (h : CallTrace c) :
    guarded [] c = true ∧ heldAfter [] c = [] := by
  cases h with
  | op r t o =>
    obtain ⟨h1, h2, -⟩ := opSteps_locks r t o [] (by simp)
    exact ⟨h1, h2⟩
  | broadcast tm o seen =>
    obtain ⟨h1, h2, -⟩ := broadcastSteps_locks tm o seen
    exact ⟨h1, h2⟩
  | addTask => exact ⟨by decide, by decide⟩

theorem goroutineTrace_guarded (th : List Prim) (h : GoroutineTrace th) :
    guarded [] th = true := by
  cases h with
  | worker r id seen =>
    simpa [workerTrace, guarded, Prim.okWith, Prim.after, Prim.needs]
      using (workerFrom_locks r seen).1.1
  | caller calls hc =>
    induction calls with
    | nil => rfl
    | cons c cs ih =>
      obtain ⟨h1, h2⟩ := callTrace_locks c (hc c (List.mem_cons_self _ _))
      rw [List.flatten_cons, guarded_append, h1, h2]
      simpa using ih (fun c hc2 => hc c (List.mem_cons_of_mem _ hc2))

/-! ## Lemmas on sequences of calls -/

theorem applyAll_append (a b : List Op) (t : Task) :
    (t.applyAll (a ++ b)).1 = ((t.applyAll a).1.applyAll b).1 := by
  induction a generalizing t with
  | nil => rfl
  | cons o os ih => simp [Task.applyAll, ih]

theorem spawnCount_applyAll_cons (t : Task) (o : Op) (os : List Op) :
    spawnCount (t.applyAll (o :: os)).2
      = spawnCount (t.apply o).2 + spawnCount ((t.apply o).1.applyAll os).2 := by
  simp [Task.applyAll, spawnCount]

/-- The running flag after a call of Start, Pause or Resume does not depend on
the flags before it. -/
theorem apply_running (t : Task) (o : Op) (ho : o ≠ Op.stop) :
    (t.apply o).1.running
      = (match o with
          | Op.pause => false
          | _ => true) := by
  obtain ⟨i, a, b⟩ := t
  cases o
  · cases a <;> rfl
  · cases a <;> rfl
  · cases a <;> rfl
  · exact absurd rfl ho

/-- The running flag after a sequence of Start, Pause and Resume calls is
decided by the last call. -/
theorem applyAll_running (pre : List Op) (t : Task) (hpre : ∀ o ∈ pre, o ≠ Op.stop) :
    (t.applyAll pre).1.running
      = (match pre.getLast? with
          | none => t.running
          | some Op.pause => false
          | some _ => true) := by
  induction pre using List.reverseRecOn with
  | nil => rfl
  | append_singleton init o _ =>
    have ho : o ≠ Op.stop := hpre o (by simp)
    rw [applyAll_append, List.getLast?_concat]
    have h1 : ((t.applyAll init).1.applyAll [o]).1 = ((t.applyAll init).1.apply o).1 := rfl
    rw [h1, apply_running _ o ho]
    cases o <;> rfl

/-- A sequence of calls in which every Start finds the running flag set spawns
no worker. -/
theorem spawnCount_of_starts_on_running (ops : List Op) (t : Task)
    (h : ∀ pre post, ops = pre ++ Op.start :: post → (t.applyAll pre).1.running = true) :
    spawnCount (t.applyAll ops).2 = 0 := by
  induction ops generalizing t with
  | nil => rfl
  | cons o os ih =>
    rw [spawnCount_applyAll_cons]
    have h2 : spawnCount ((t.apply o).1.applyAll os).2 = 0 := by
      apply ih
      intro pre post e
      have := h (o :: pre) post (by rw [e]; rfl)
      simpa [Task.applyAll] using this
    have h1 : spawnCount (t.apply o).2 = 0 := by
      by_cases ho : o = Op.start
      · subst ho
        have hr : t.running = true := h [] os rfl
        simp [Task.apply, Task.Start, hr, spawnCount]
      · exact spawnCount_apply t o ho
    rw [h1, h2]

/-- Every worker spawned by a sequence of calls needs a Pause before it, or a
running flag that is clear at the beginning. -/
theorem spawnCount_le_pauses (ops : List Op) (t : Task) :
    spawnCount (t.applyAll ops).2 ≤ ops.count Op.pause + (if t.running then 0 else 1) := by
  induction ops generalizing t with
  | nil => simp [Task.applyAll, spawnCount]
  | cons o os ih =>
    rw [spawnCount_applyAll_cons]
    have ih2 := ih (t.apply o).1
    obtain ⟨i, a, b⟩ := t
    cases o <;> cases a <;> cases b <;>
      simp [Task.apply, Task.Start, Task.Pause, Task.Resume, Task.Stop, spawnCount] at ih2 ⊢ <;>
      omega

/-! ## Theorems -/

/-- C1. Start is idempotent: on a task fresh from `NewTask`, for every id, the
first `Start` sets the running flag (the stop flag stays clear) and spawns one
worker; the second `Start` changes neither flag and spawns nothing; the two
calls together spawn exactly one worker. -/
theorem start_twice_spawns_one (id : Int) :
    ((NewTask id).Start).1 = { id := id, running := true, stop := false } ∧
    spawnCount ((NewTask id).Start).2 = 1 ∧
    (((NewTask id).Start).1.Start).1 = ((NewTask id).Start).1 ∧
    spawnCount (((NewTask id).Start).1.Start).2 = 0 ∧
    ((NewTask id).applyAll [Op.start, Op.start]).1 = ((NewTask id).Start).1 ∧
    spawnCount ((NewTask id).applyAll [Op.start, Op.start]).2 = 1 ∧
    (Sys.run (Sys.init id) [Action.call Op.start, Action.call Op.start]).workers
      = [Pc.spawned] := by
  refine ⟨rfl, ?_, rfl, ?_, rfl, ?_, rfl⟩ <;>
    simp [NewTask, Task.Start, Task.applyAll, Task.apply, spawnCount]

/-- C2. Evaluation at the failing input. On a task fresh from `NewTask`, for
every id, the calls Start, Pause, Start leave two live workers, however the
steps of the goroutines are scheduled between and after the calls: the second
`Start` finds the running flag cleared by `Pause` and spawns again, and with
the stop flag clear no goroutine can have left its loop. -/
theorem start_on_paused_spawns_second_worker (id : Int) (w1 w2 w3 : List Nat) :
    ((Sys.init id).run
        ([Action.call Op.start] ++ workerSteps w1 ++ [Action.call Op.pause]
          ++ workerSteps w2 ++ [Action.call Op.start] ++ workerSteps w3)).liveWorkers = 2 ∧
    ((NewTask id).applyAll [Op.start, Op.pause]).1 = NewTask id ∧
    spawnCount ((NewTask id).applyAll [Op.start, Op.pause, Op.start]).2 = 2 := by
  have hc : callsOf ([Action.call Op.start] ++ workerSteps w1 ++ [Action.call Op.pause]
      ++ workerSteps w2 ++ [Action.call Op.start] ++ workerSteps w3)
      = [Op.start, Op.pause, Op.start] := by
    simp [callsOf_append, callsOf_workerSteps, callsOf]
  refine ⟨?_, rfl, ?_⟩
  · rw [liveWorkers_run_init id _ (by rw [hc]; rfl), hc]
    simp [Task.applyAll, Task.apply, Task.Start, Task.Pause, NewTask, spawnCount]
  · simp [Task.applyAll, Task.apply, Task.Start, Task.Pause, NewTask, spawnCount]

/-- C3, the claim as stated fails. Task 1 is started and stopped, so its stop
flag is set; the following calls Pause, Start contain no Stop, and they spawn
a new worker. -/
theorem stopped_pause_start_spawns :
    ((NewTask 1).applyAll [Op.start, Op.stop]).1
        = { id := 1, running := true, stop := true } ∧
    spawnCount
      ((({ id := 1, running := true, stop := true } : Task).applyAll
        [Op.pause, Op.start]).2) = 1 ∧
    ((Sys.init 1).run [Action.call Op.start, Action.call Op.stop]).workers.length = 1 ∧
    ((Sys.init 1).run [Action.call Op.start, Action.call Op.stop,
        Action.call Op.pause, Action.call Op.start]).workers.length = 2 := by
  decide

/-- C3, amended. For every task whose stop flag is set and every finite
sequence of Start/Pause/Resume calls: the stop flag is still set afterwards
(the task stays Stopped) and a worker making its loop check then exits; and no
new worker is spawned unless some Start of the sequence is called while the
running flag is clear. The running flag at a call is decided by the call before
it: clear after a Pause, set after a Start or a Resume, and as it was at the
beginning when there is no call before. So the sequence spawns nothing when no
Start comes directly after a Pause and, if the running flag is clear at the
beginning, the sequence does not begin with a Start; in particular it spawns
nothing when it contains no Start, and when the running flag is set at the
beginning and it contains no Pause, in which case the task is left exactly as
it was. Every worker spawned needs a Pause of its own before it, or the
running flag clear at the beginning. -/
theorem stopped_stays_stopped (t : Task) (ops : List Op) (hs : t.stop = true)
    (hops : ∀ o ∈ ops, o ≠ Op.stop) :
    (t.applyAll ops).1.stop = true ∧
    workerCheck (t.applyAll ops).1 = WorkerAction.exit ∧
    ((∀ pre post, ops = pre ++ Op.start :: post → (t.applyAll pre).1.running = true) →
      spawnCount (t.applyAll ops).2 = 0) ∧
    (∀ pre post, ops = pre ++ post →
      (t.applyAll pre).1.running
        = (match pre.getLast? with
            | none => t.running
            | some Op.pause => false
            | some _ => true)) ∧
    ((∀ pre post, ops = pre ++ Op.start :: post →
        pre.getLast? ≠ some Op.pause ∧ (pre = [] → t.running = true)) →
      spawnCount (t.applyAll ops).2 = 0) ∧
    (Op.start ∉ ops → spawnCount (t.applyAll ops).2 = 0) ∧
    (t.running = true → (∀ o ∈ ops, o ≠ Op.pause) →
      (t.applyAll ops).1 = t ∧ spawnCount (t.applyAll ops).2 = 0) ∧
    spawnCount (t.applyAll ops).2 ≤ ops.count Op.pause + (if t.running then 0 else 1) := by
  have h1 := applyAll_stop_of_stop ops t hs
  have hrun : ∀ pre post, ops = pre ++ post →
      (t.applyAll pre).1.running
        = (match pre.getLast? with
            | none => t.running
            | some Op.pause => false
            | some _ => true) := by
    intro pre post e
    apply applyAll_running
    intro o ho
    exact hops o (by rw [e]; exact List.mem_append_left _ ho)
  refine ⟨h1, by simp [workerCheck, h1], spawnCount_of_starts_on_running ops t, hrun, ?_, ?_, ?_,
    spawnCount_le_pauses ops t⟩
  · intro h
    apply spawnCount_of_starts_on_running
    intro pre post e
    obtain ⟨hp, hn⟩ := h pre post e
    rw [hrun pre (Op.start :: post) e]
    cases hl : pre.getLast? with
    | none => exact hn (List.getLast?_eq_none_iff.mp hl)
    | some o =>
      cases o
      · rfl
      · exact absurd hl hp
      · rfl
      · rfl
  · intro hno
    apply spawnCount_of_starts_on_running
    intro pre post e
    exact absurd (by rw [e]; simp) hno
  · intro hr hp
    refine ⟨?_, ?_⟩
    · clear h1 hrun
      induction ops with
      | nil => rfl
      | cons o os ih =>
        have ho1 : o ≠ Op.stop := hops o (List.mem_cons_self _ _)
        have ho2 : o ≠ Op.pause := hp o (List.mem_cons_self _ _)
        have hstep : (t.apply o).1 = t := by
          cases o
          · simp [Task.apply, Task.Start, hr]
          · exact absurd rfl ho2
          · simp [Task.apply, Task.Resume, hr]
          · exact absurd rfl ho1
        simp only [Task.applyAll, hstep]
        exact ih (fun o ho => hops o (List.mem_cons_of_mem _ ho))
          (fun o ho => hp o (List.mem_cons_of_mem _ ho))
    · have := spawnCount_le_pauses ops t
      have hc : ops.count Op.pause = 0 := List.count_eq_zero.mpr (fun hm => hp _ hm rfl)
      rw [hc, hr] at this
      simpa using this

/-- Witness for C3 amended: task 1 stopped while running; the calls Pause,
Resume, Start spawn nothing, since the Start comes after the Resume; the calls
Start, Resume, Start leave the task as it was. -/
theorem stopped_stays_stopped_witness :
    (({ id := 1, running := true, stop := true } : Task).applyAll
        [Op.pause, Op.resume, Op.start]).1.stop = true ∧
    workerCheck (({ id := 1, running := true, stop := true } : Task).applyAll
        [Op.pause, Op.resume, Op.start]).1 = WorkerAction.exit ∧
    spawnCount (({ id := 1, running := true, stop := true } : Task).applyAll
        [Op.pause, Op.resume, Op.start]).2 = 0 ∧
    (({ id := 1, running := true, stop := true } : Task).applyAll
        [Op.start, Op.resume, Op.start]).1 = { id := 1, running := true, stop := true } ∧
    spawnCount (({ id := 1, running := true, stop := true } : Task).applyAll
        [Op.start, Op.resume, Op.start]).2 = 0 :=
  have h := stopped_stays_stopped { id := 1, running := true, stop := true }
    [Op.pause, Op.resume, Op.start] rfl (by decide)
  have h2 := stopped_stays_stopped { id := 1, running := true, stop := true }
    [Op.start, Op.resume, Op.start] rfl (by decide)
  ⟨h.1, h.2.1,
    h.2.2.2.2.1 (by
      intro pre post e
      rcases pre with _ | ⟨a, _ | ⟨b, _ | ⟨c, pre⟩⟩⟩ <;> simp at e
      obtain ⟨rfl, rfl, rfl⟩ := e
      exact ⟨by decide, by simp⟩),
    (h2.2.2.2.2.2.2.1 rfl (by decide)).1, (h2.2.2.2.2.2.2.1 rfl (by decide)).2⟩

/-- C4. Evaluation at the failing input. For every id, `Stop` on a task whose
flags are both clear (the flags of a Paused task) prints "is not running" and
does nothing else: the stop flag stays clear and there is no `Signal`. In the
run Start, worker works once, Pause, worker blocks in `Wait`, Stop, the worker
is still blocked after the `Stop`, and no later scheduling of goroutines moves
it. -/
theorem stop_on_paused_is_ignored (id : Int) (ws : List Nat) :
    ({ id := id, running := false, stop := false } : Task).Stop
      = ({ id := id, running := false, stop := false },
          [Event.print id Diag.notRunning]) ∧
    ((Sys.init id).run [Action.call Op.start, Action.worker 0, Action.worker 0,
        Action.call Op.pause, Action.worker 0, Action.worker 0]).workers = [Pc.waiting] ∧
    ((Sys.init id).run [Action.call Op.start, Action.worker 0, Action.worker 0,
        Action.call Op.pause, Action.worker 0, Action.worker 0,
        Action.call Op.stop]).workers = [Pc.waiting] ∧
    ((Sys.init id).run [Action.call Op.start, Action.worker 0, Action.worker 0,
        Action.call Op.pause, Action.worker 0, Action.worker 0,
        Action.call Op.stop]).task = { id := id, running := false, stop := false } ∧
    (((Sys.init id).run [Action.call Op.start, Action.worker 0, Action.worker 0,
        Action.call Op.pause, Action.worker 0, Action.worker 0,
        Action.call Op.stop]).run (workerSteps ws)).workers = [Pc.waiting] := by
  have h6 : (Sys.init id).run [Action.call Op.start, Action.worker 0, Action.worker 0,
      Action.call Op.pause, Action.worker 0, Action.worker 0]
      = { task := { id := id, running := false, stop := false },
          workers := [Pc.waiting], waitq := [0],
          out := [Event.spawn, Event.print id Diag.threadStarted,
                  Event.print id Diag.isRunning, Event.print id Diag.threadPaused] } := by
    simp [Sys.run, Sys.step, Sys.call, Sys.workerStep, Sys.perform, Sys.init, NewTask,
      Task.apply, Task.Start, Task.Pause, workerCheck]
  have h7 : (Sys.init id).run [Action.call Op.start, Action.worker 0, Action.worker 0,
      Action.call Op.pause, Action.worker 0, Action.worker 0, Action.call Op.stop]
      = { task := { id := id, running := false, stop := false },
          workers := [Pc.waiting], waitq := [0],
          out := [Event.spawn, Event.print id Diag.threadStarted,
                  Event.print id Diag.isRunning, Event.print id Diag.threadPaused,
                  Event.print id Diag.notRunning] } := by
    simp [Sys.run, Sys.step, Sys.call, Sys.workerStep, Sys.perform, Sys.init, NewTask,
      Task.apply, Task.Start, Task.Pause, Task.Stop, workerCheck]
  refine ⟨rfl, by rw [h6], by rw [h7], by rw [h7], ?_⟩
  rw [h7, run_workerSteps_of_all_waiting]
  intro p hp
  simpa using hp

/-- C5. Stop from Running: for every task with the running flag set and the
stop flag clear, `Stop` sets the stop flag (and nothing else), emits one
`Signal` and spawns nothing; whatever the running flag is afterwards, the loop
check of the worker then exits (it neither waits nor works); and in every
system around such a task, a goroutine that is about to make its loop check
when `Stop` is called has left its loop after its next step. -/
theorem stop_from_running_exits (t : Task) (hr : t.running = true) (hs : t.stop = false) :
    (t.Stop).1 = { t with stop := true } ∧
    signalCount (t.Stop).2 = 1 ∧
    spawnCount (t.Stop).2 = 0 ∧
    (∀ r : Bool, workerCheck { (t.Stop).1 with running := r } = WorkerAction.exit) ∧
    (∀ r : Bool, workerCheck { (t.Stop).1 with running := r } ≠ WorkerAction.wait ∧
      workerCheck { (t.Stop).1 with running := r } ≠ WorkerAction.work) ∧
    (∀ (s : Sys) (i : Nat), s.task = t → s.workers[i]? = some Pc.ready →
      ((s.call Op.stop).workerStep i).workers[i]? = some Pc.exited) := by
  have hstop : t.Stop = ({ t with stop := true },
      [Event.signal, Event.print t.id Diag.beingStopped]) := by
    simp [Task.Stop, hr, hs]
  have hchk : ∀ r : Bool, workerCheck { (t.Stop).1 with running := r } = WorkerAction.exit := by
    intro r
    simp [hstop, workerCheck]
  refine ⟨by rw [hstop], by simp [hstop, signalCount], by simp [hstop, spawnCount], hchk,
    fun r => by simp [hchk r], ?_⟩
  intro s i hst hi
  apply workerStep_ready_of_stop
  · rw [call_task, hst]
    simp [Task.apply, hstop]
  · have : (s.call Op.stop).workers = ({ s with task := { t with stop := true } } : Sys).wake.workers := by
      simp [Sys.call, hst, Task.apply, hstop, Sys.perform]
    rw [this]
    exact wake_getElem_ready _ i hi

/-- Witness for C5: task 1 after Start, with its goroutine about to make the
loop check. -/
theorem stop_from_running_exits_witness :
    (({ id := 1, running := true, stop := false } : Task).Stop).1
      = { id := 1, running := true, stop := true } ∧
    signalCount (({ id := 1, running := true, stop := false } : Task).Stop).2 = 1 ∧
    workerCheck { id := 1, running := false, stop := true } = WorkerAction.exit ∧
    (((({ task := { id := 1, running := true, stop := false }, workers := [Pc.ready],
          waitq := [], out := [] } : Sys).call Op.stop).workerStep 0).workers[0]?
      = some Pc.exited) :=
  have h := stop_from_running_exits { id := 1, running := true, stop := false } rfl rfl
  ⟨h.1, h.2.1, h.2.2.2.1 false,
    h.2.2.2.2.2 (Sys.mk { id := 1, running := true, stop := false } [Pc.ready] [] []) 0 rfl rfl⟩

/-- C6, the claim as stated fails. `Resume` on task 1 fresh from `NewTask`
(Idle: never started, no worker) sets the running flag and calls `Signal`, and
a following `Start` then spawns nothing; `Resume` on task 1 after Start, Stop,
Pause (Stopped, running flag cleared) sets the running flag and calls `Signal`
as well. -/
theorem resume_on_idle_sets_running :
    (NewTask 1).Resume
      = ({ id := 1, running := true, stop := false },
          [Event.signal, Event.print 1 Diag.threadResumed]) ∧
    (NewTask 1).applyAll [Op.resume, Op.start]
      = ({ id := 1, running := true, stop := false },
          [Event.signal, Event.print 1 Diag.threadResumed,
           Event.print 1 Diag.alreadyRunning]) ∧
    ((Sys.init 1).run [Action.call Op.resume, Action.call Op.start]).workers = [] ∧
    ((NewTask 1).applyAll [Op.start, Op.stop, Op.pause]).1
      = { id := 1, running := false, stop := true } ∧
    ({ id := 1, running := false, stop := true } : Task).Resume
      = ({ id := 1, running := true, stop := true },
          [Event.signal, Event.print 1 Diag.threadResumed]) := by
  decide

/-- C6, amended. `Resume` is a no-op unless the running flag is clear: for
every task whose running flag is set (Running, or Stopped while running),
`Resume` leaves the task as it is, prints one line and emits no `Signal`; and
on every task whatsoever `Resume` leaves the stop flag and the id unchanged
and spawns no worker. -/
theorem resume_noop_when_running_set (t : Task) (hr : t.running = true) :
    (t.Resume).1 = t ∧
    (t.Resume).2 = [Event.print t.id Diag.alreadyRunning] ∧
    signalCount (t.Resume).2 = 0 ∧
    spawnCount (t.Resume).2 = 0 ∧
    (∀ u : Task, (u.Resume).1.stop = u.stop ∧ (u.Resume).1.id = u.id ∧
      spawnCount (u.Resume).2 = 0) := by
  have hp : t.Resume = (t, [Event.print t.id Diag.alreadyRunning]) := by
    simp [Task.Resume, hr]
  refine ⟨by rw [hp], by rw [hp], by simp [hp, signalCount], by simp [hp, spawnCount], ?_⟩
  intro u
  unfold Task.Resume
  split <;> exact ⟨rfl, rfl, by simp [spawnCount]⟩

/-- Witness for C6 amended: task 1 after Start (Running), and task 2 after
Start, Stop (Stopped while running). -/
theorem resume_noop_when_running_set_witness :
    ((({ id := 1, running := true, stop := false } : Task).Resume)
      = ({ id := 1, running := true, stop := false },
          [Event.print 1 Diag.alreadyRunning])) ∧
    ((({ id := 2, running := true, stop := true } : Task).Resume).1
      = { id := 2, running := true, stop := true }) :=
  have h1 := resume_noop_when_running_set { id := 1, running := true, stop := false } rfl
  have h2 := resume_noop_when_running_set { id := 2, running := true, stop := true } rfl
  ⟨Prod.ext h1.1 h1.2.1, h2.1⟩

/-- C7, the claim as stated fails. Task 1 is started and stopped, so it is
Stopped with its running flag still set; `Pause` then clears the running
flag. -/
theorem pause_on_stopped_clears_running :
    ((NewTask 1).applyAll [Op.start, Op.stop]).1
        = { id := 1, running := true, stop := true } ∧
    (({ id := 1, running := true, stop := true } : Task).Pause).1
        = { id := 1, running := false, stop := true } ∧
    (({ id := 1, running := true, stop := true } : Task).Pause).1.running
        ≠ ({ id := 1, running := true, stop := true } : Task).running := by
  decide

/-- C7, amended. `Pause` is a no-op unless the running flag is set: for every
task whose running flag is clear (Idle, Paused, or Stopped with the flag
already cleared), `Pause` leaves the task as it is, prints one line, emits no
`Signal` and spawns nothing; and on every task whatsoever `Pause` leaves the
stop flag and the id unchanged. -/
theorem pause_noop_when_running_clear (t : Task) (hr : t.running = false) :
    (t.Pause).1 = t ∧
    (t.Pause).2 = [Event.print t.id Diag.notRunning] ∧
    signalCount (t.Pause).2 = 0 ∧
    spawnCount (t.Pause).2 = 0 ∧
    (∀ u : Task, (u.Pause).1.stop = u.stop ∧ (u.Pause).1.id = u.id) := by
  have hp : t.Pause = (t, [Event.print t.id Diag.notRunning]) := by
    simp [Task.Pause, hr]
  refine ⟨by rw [hp], by rw [hp], by simp [hp, signalCount], by simp [hp, spawnCount], ?_⟩
  intro u
  unfold Task.Pause
  split <;> exact ⟨rfl, rfl⟩

/-- Witness for C7 amended: a task that was started, stopped and paused. -/
theorem pause_noop_when_running_clear_witness :
    (({ id := 1, running := false, stop := true } : Task).Pause).1
      = { id := 1, running := false, stop := true } ∧
    (({ id := 1, running := false, stop := true } : Task).Pause).2
      = [Event.print 1 Diag.notRunning] :=
  have h := pause_noop_when_running_clear { id := 1, running := false, stop := true } rfl
  ⟨h.1, h.2.1⟩

/-- C8. The four listed misuses are ignored. For every id: `Start` on a
Running task, `Pause` on an Idle task, `Resume` on a Running task and `Stop`
on an Idle task each return the task unchanged together with exactly one
printed line (the diagnostic) and no other effect: no worker is spawned and no
`Signal` is made. -/
theorem misuse_is_ignored (id : Int) :
    (({ id := id, running := true, stop := false } : Task).Start
      = ({ id := id, running := true, stop := false },
          [Event.print id Diag.alreadyRunning])) ∧
    ((NewTask id).Pause = (NewTask id, [Event.print id Diag.notRunning])) ∧
    (({ id := id, running := true, stop := false } : Task).Resume
      = ({ id := id, running := true, stop := false },
          [Event.print id Diag.alreadyRunning])) ∧
    ((NewTask id).Stop = (NewTask id, [Event.print id Diag.notRunning])) ∧
    (∀ d : Diag, printCount [Event.print id d] = 1 ∧ spawnCount [Event.print id d] = 0 ∧
      signalCount [Event.print id d] = 0) ∧
    (((NewTask id).Start).1.Start
      = (((NewTask id).Start).1, [Event.print id Diag.alreadyRunning])) := by
  refine ⟨rfl, rfl, rfl, rfl, ?_, rfl⟩
  intro d
  simp [printCount, spawnCount, signalCount]

/-- C9. Each broadcast operation is a map of the task operation over the
registered list. For every manager, operation and heap: the calls issued are
one per list entry, on the entries in insertion order, each of them the
matching operation; afterwards every registered task is in the state that the
single operation gives from its state before the broadcast, and every task
that is not registered is untouched; and when no task is registered twice,
the effects of each call are those of the operation on the state before the
broadcast. -/
theorem broadcast_is_map (tm : TaskManager) (o : Op) (h : Heap) :
    (tm.broadcast o h).2.map (fun c => (c.ref, c.op)) = tm.tasks.map (fun r => (r, o)) ∧
    (tm.broadcast o h).2.length = tm.tasks.length ∧
    (∀ r : Ref, (tm.broadcast o h).1 r
      = if r ∈ tm.tasks then ((h r).apply o).1 else h r) ∧
    (tm.tasks.Nodup → (tm.broadcast o h).2
      = tm.tasks.map (fun r => { ref := r, op := o, events := ((h r).apply o).2 })) ∧
    tm.StartAll h = tm.broadcast Op.start h ∧
    tm.PauseAll h = tm.broadcast Op.pause h ∧
    tm.ResumeAll h = tm.broadcast Op.resume h ∧
    tm.StopAll h = tm.broadcast Op.stop h := by
  rw [broadcast_eq]
  refine ⟨forEachTask_refs o tm.tasks h, ?_, forEachTask_heap o tm.tasks h,
    forEachTask_issued o tm.tasks h, rfl, rfl, rfl, rfl⟩
  have := congrArg List.length (forEachTask_refs o tm.tasks h)
  simpa using this

/-- Witness for C9: three fresh tasks 1, 2, 3 at references 0, 1, 2 and
`StartAll`. -/
theorem broadcast_is_map_witness :
    (({ tasks := [0, 1, 2] } : TaskManager).broadcast Op.start (fun r => NewTask (r + 1))).2
      = [{ ref := 0, op := Op.start, events := [Event.spawn] },
         { ref := 1, op := Op.start, events := [Event.spawn] },
         { ref := 2, op := Op.start, events := [Event.spawn] }] :=
  (broadcast_is_map { tasks := [0, 1, 2] } Op.start (fun r => NewTask (r + 1))).2.2.2.1
    (by decide)

/-- C10. AddTask appends. For every manager and every task reference, the
list after `AddTask` is the old list followed by the new reference: the old
entries are the same and in the same order, the new one is last, the length
grows by exactly one; nothing is checked against the entries already there, so
adding the same task again appends it again; and `NewTaskManager` starts with
the empty list. -/
theorem addTask_appends (tm : TaskManager) (task : Ref) :
    (tm.AddTask task).tasks = tm.tasks ++ [task] ∧
    (tm.AddTask task).tasks.length = tm.tasks.length + 1 ∧
    (tm.AddTask task).tasks.take tm.tasks.length = tm.tasks ∧
    (tm.AddTask task).tasks.drop tm.tasks.length = [task] ∧
    (tm.AddTask task).tasks.getLast? = some task ∧
    ((tm.AddTask task).AddTask task).tasks = tm.tasks ++ [task, task] ∧
    NewTaskManager.tasks = [] := by
  simp [TaskManager.AddTask, NewTaskManager]

/-- C11. The worker only works while Running. For every value of the flags at
the loop check of the worker: it starts a unit of work exactly when running is
set and stop is clear, it blocks in `Wait` exactly when both flags are clear,
and it leaves the loop exactly when stop is set; a goroutine of the system
that makes its check moves accordingly. -/
theorem worker_check_cases (t : Task) :
    (workerCheck t = WorkerAction.work ↔ (t.running = true ∧ t.stop = false)) ∧
    (workerCheck t = WorkerAction.wait ↔ (t.running = false ∧ t.stop = false)) ∧
    (workerCheck t = WorkerAction.exit ↔ t.stop = true) ∧
    (∀ ws q out,
      (({ task := t, workers := Pc.ready :: ws, waitq := q, out := out } : Sys).workerStep 0).workers
        = (match workerCheck t with
            | WorkerAction.wait => Pc.waiting
            | WorkerAction.exit => Pc.exited
            | WorkerAction.work => Pc.working) :: ws) := by
  obtain ⟨i, r, s⟩ := t
  cases r <;> cases s <;> simp [workerCheck, Sys.workerStep]

/-- C12. Pause and Resume oscillate between Running and Paused. For every
Running task (running set, stop clear): `Pause` clears the running flag and
nothing else, emits no `Signal` and spawns nothing, and the worker then blocks
at its loop check; a following `Resume` gives back exactly the task as it was
before the `Pause`, emits exactly one `Signal` and spawns no worker. -/
theorem pause_resume_roundtrip (t : Task) (hr : t.running = true) (hs : t.stop = false) :
    (t.Pause).1 = { t with running := false } ∧
    (t.Pause).1.stop = false ∧
    signalCount (t.Pause).2 = 0 ∧
    spawnCount (t.Pause).2 = 0 ∧
    workerCheck (t.Pause).1 = WorkerAction.wait ∧
    ((t.Pause).1.Resume).1 = t ∧
    signalCount ((t.Pause).1.Resume).2 = 1 ∧
    spawnCount ((t.Pause).1.Resume).2 = 0 ∧
    workerCheck ((t.Pause).1.Resume).1 = WorkerAction.work := by
  obtain ⟨i, r, s⟩ := t
  simp only at hr hs
  subst hr hs
  simp [Task.Pause, Task.Resume, signalCount, spawnCount, workerCheck]

/-- Witness for C12: task 1 after Start. -/
theorem pause_resume_roundtrip_witness :
    (({ id := 1, running := true, stop := false } : Task).Pause).1
      = { id := 1, running := false, stop := false } ∧
    ((({ id := 1, running := true, stop := false } : Task).Pause).1.Resume).1
      = { id := 1, running := true, stop := false } ∧
    signalCount ((({ id := 1, running := true, stop := false } : Task).Pause).1.Resume).2 = 1 :=
  have h := pause_resume_roundtrip { id := 1, running := true, stop := false } rfl rfl
  ⟨h.1, h.2.2.2.2.2.1, h.2.2.2.2.2.2.1⟩

/-- C13. Stop is idempotent from Stopped. For every task whose stop flag is
set, a further `Stop` leaves the task exactly as it was; and for every task
whatsoever, `Stop` followed by `Stop` gives the same task as a single
`Stop`. -/
theorem stop_idempotent (t : Task) (hs : t.stop = true) :
    (t.Stop).1 = t ∧
    (t.Stop).1.running = t.running ∧
    (t.Stop).1.stop = true ∧
    (∀ u : Task, ((u.Stop).1.Stop).1 = (u.Stop).1) ∧
    (∀ u : Task, (u.applyAll [Op.stop, Op.stop]).1 = (u.applyAll [Op.stop]).1) := by
  have h1 : (t.Stop).1 = t := by
    obtain ⟨i, r, s⟩ := t
    simp only at hs
    subst hs
    simp [Task.Stop]
  refine ⟨h1, by rw [h1], by rw [h1]; exact hs, fun u => apply_apply u Op.stop, ?_⟩
  intro u
  simpa [Task.applyAll, Task.apply] using apply_apply u Op.stop

/-- Witness for C13: task 1 after Start, Stop. -/
theorem stop_idempotent_witness :
    (({ id := 1, running := true, stop := true } : Task).Stop).1
      = { id := 1, running := true, stop := true } ∧
    ((NewTask 1).applyAll [Op.start, Op.stop, Op.stop]).1
      = ((NewTask 1).applyAll [Op.start, Op.stop]).1 :=
  have h := stop_idempotent { id := 1, running := true, stop := true } rfl
  ⟨h.1, h.2.2.2.1 ((NewTask 1).Start).1⟩

/-- C19. Stop never clears the running flag. For every task that is Running
when `Stop` takes effect (running set, stop clear): after `Stop` the running
flag is still set and the stop flag is set; an immediately following `Start`
prints "is already running", leaves the task as it is and spawns nothing. -/
theorem stop_leaves_running_set (t : Task) (hr : t.running = true) (hs : t.stop = false) :
    (t.Stop).1.running = true ∧
    (t.Stop).1.stop = true ∧
    (t.Stop).1.Start = ((t.Stop).1, [Event.print t.id Diag.alreadyRunning]) ∧
    spawnCount ((t.Stop).1.Start).2 = 0 ∧
    (t.applyAll [Op.stop, Op.start]).1 = (t.Stop).1 := by
  obtain ⟨i, r, s⟩ := t
  simp only at hr hs
  subst hr hs
  simp [Task.Stop, Task.Start, spawnCount, Task.applyAll, Task.apply]

/-- Witness for C19: task 1 after Start. -/
theorem stop_leaves_running_set_witness :
    ((({ id := 1, running := true, stop := false } : Task).Stop).1.running = true) ∧
    ((({ id := 1, running := true, stop := false } : Task).Stop).1.Start
      = ({ id := 1, running := true, stop := true },
          [Event.print 1 Diag.alreadyRunning])) :=
  have h := stop_leaves_running_set { id := 1, running := true, stop := false } rfl rfl
  ⟨h.1, h.2.2.1⟩

/-- C20. The stop flag is monotone. No control operation clears a set stop
flag and no step of a goroutine writes a flag, so in every system whose stop
flag is set, after every finite schedule of control calls and goroutine steps
the stop flag is still set, the loop check of the worker exits, and a
goroutine that is about to make its check has left its loop after its next
step. -/
theorem stop_flag_monotone (s : Sys) (as : List Action) (hs : s.task.stop = true) :
    (s.run as).task.stop = true ∧
    workerCheck (s.run as).task = WorkerAction.exit ∧
    (∀ i : Nat, (s.run as).workers[i]? = some Pc.ready →
      ((s.run as).workerStep i).workers[i]? = some Pc.exited) ∧
    (∀ (o : Op), (s.task.apply o).1.stop = true) ∧
    (∀ (u : Sys) (i : Nat), (u.workerStep i).task = u.task) := by
  have h1 : (s.run as).task.stop = true := by
    rw [run_task]
    exact applyAll_stop_of_stop _ _ hs
  refine ⟨h1, by simp [workerCheck, h1], ?_, fun o => apply_stop_of_stop _ o hs,
    workerStep_task⟩
  intro i hi
  exact workerStep_ready_of_stop _ i h1 hi

/-- Witness for C20: task 1 after Start, Stop, with its goroutine about to make
the loop check; then Pause, Resume, Start and Stop again. -/
theorem stop_flag_monotone_witness :
    (((Sys.mk { id := 1, running := true, stop := true } [Pc.ready] [] []).run
        [Action.call Op.pause, Action.call Op.resume, Action.call Op.start,
         Action.call Op.stop]).task.stop = true) ∧
    workerCheck ((Sys.mk { id := 1, running := true, stop := true } [Pc.ready] [] []).run
        [Action.call Op.pause, Action.call Op.resume, Action.call Op.start,
         Action.call Op.stop]).task = WorkerAction.exit :=
  have h := stop_flag_monotone (Sys.mk { id := 1, running := true, stop := true } [Pc.ready] [] [])
    [Action.call Op.pause, Action.call Op.resume, Action.call Op.start, Action.call Op.stop] rfl
  ⟨h.1, h.2.1⟩

/-- C14. The scenario of `main`. For every manager whose registered tasks are
fresh (both flags clear) and every registered task: after `StartAll` the task
is Running and exactly one worker has been spawned for it; after `PauseAll` it
is Paused and the loop check of its worker blocks instead of working; after
`ResumeAll` it is Running again, as after `StartAll`, and the loop check
works; after `StopAll` it is Stopped and the loop check exits; and the three
later broadcasts spawn no worker. -/
theorem scenario_start_pause_resume_stop (tm : TaskManager) (h : Heap)
    (hfresh : ∀ r ∈ tm.tasks, (h r).running = false ∧ (h r).stop = false)
    (r : Ref) (hr : r ∈ tm.tasks) :
    ((afterStartAll tm h r).running = true ∧ (afterStartAll tm h r).stop = false ∧
      spawnsFor r (tm.StartAll h).2 = 1) ∧
    ((afterPauseAll tm h r).running = false ∧ (afterPauseAll tm h r).stop = false ∧
      workerCheck (afterPauseAll tm h r) = WorkerAction.wait ∧
      spawnsFor r (tm.PauseAll (afterStartAll tm h)).2 = 0) ∧
    (afterResumeAll tm h r = afterStartAll tm h r ∧
      workerCheck (afterResumeAll tm h r) = WorkerAction.work ∧
      spawnsFor r (tm.ResumeAll (afterPauseAll tm h)).2 = 0) ∧
    ((afterStopAll tm h r).stop = true ∧
      workerCheck (afterStopAll tm h r) = WorkerAction.exit ∧
      spawnsFor r (tm.StopAll (afterResumeAll tm h)).2 = 0) := by
  obtain ⟨h1, h2⟩ := hfresh r hr
  have e1 : afterStartAll tm h r = { h r with running := true } := by
    simp [afterStartAll, TaskManager.StartAll, forEachTask_heap, hr, Task.apply, Task.Start, h1]
  have e2 : afterPauseAll tm h r = h r := by
    rw [afterPauseAll, TaskManager.PauseAll, forEachTask_heap, if_pos hr, e1]
    generalize h r = t at h1 h2
    obtain ⟨i, a, b⟩ := t
    simp only at h1 h2
    subst h1 h2
    rfl
  have e3 : afterResumeAll tm h r = { h r with running := true } := by
    simp [afterResumeAll, TaskManager.ResumeAll, forEachTask_heap, hr, e2, Task.apply,
      Task.Resume, h1]
  have e4 : afterStopAll tm h r = { h r with running := true, stop := true } := by
    simp [afterStopAll, TaskManager.StopAll, forEachTask_heap, hr, e3, Task.apply, Task.Stop]
  refine ⟨⟨by rw [e1], by rw [e1]; exact h2, ?_⟩, ⟨by rw [e2]; exact h1, by rw [e2]; exact h2,
    by rw [e2]; simp [workerCheck, h1, h2], ?_⟩, ⟨by rw [e3, e1], by rw [e3]; simp [workerCheck, h2],
    ?_⟩, ⟨by rw [e4], by rw [e4]; simp [workerCheck], ?_⟩⟩
  · simp [TaskManager.StartAll, spawnsFor_forEachTask_start, hr, h1]
  · exact spawnsFor_forEachTask_other _ (by decide) _ _ _
  · exact spawnsFor_forEachTask_other _ (by decide) _ _ _
  · exact spawnsFor_forEachTask_other _ (by decide) _ _ _

/-- Witness for C14: the manager and the three tasks of `main` (ids 1, 2, 3),
at the task with id 2. -/
theorem scenario_start_pause_resume_stop_witness :
    mainManager.tasks = [0, 1, 2] ∧
    mainHeap 1 = NewTask 2 ∧
    afterStartAll mainManager mainHeap 1 = { id := 2, running := true, stop := false } ∧
    spawnsFor 1 (mainManager.StartAll mainHeap).2 = 1 ∧
    workerCheck (afterPauseAll mainManager mainHeap 1) = WorkerAction.wait ∧
    workerCheck (afterResumeAll mainManager mainHeap 1) = WorkerAction.work ∧
    workerCheck (afterStopAll mainManager mainHeap 1) = WorkerAction.exit :=
  have h := scenario_start_pause_resume_stop mainManager mainHeap
    (fun _ _ => ⟨rfl, rfl⟩) 1 (by decide)
  ⟨rfl, rfl, by decide, h.1.2.2, h.2.1.2.2.1, h.2.2.1.2.1, h.2.2.2.2.1⟩

/-- C17. After a successful connect, `GetMqttClient` subscribes to every topic
of the list at the configured QoS. For every configuration and every run of
connect outcomes that contains a success, the function returns, and the filter
map it hands to `SubscribeMultiple` holds exactly the pieces of `config.Topic`
between its commas as keys, each with the value `config.Qos`. -/
theorem subscribes_every_topic (config : MQTT) (outcomes : List Bool)
    (hok : true ∈ outcomes) :
    ∃ c, GetMqttClient config 0 outcomes = some c ∧
      (∀ k : String, c.filters k
        = if k ∈ Split config.Topic then some config.Qos else none) ∧
      (∀ k : String, (c.filters k).isSome = true ↔ k ∈ Split config.Topic) := by
  obtain ⟨c, h1, h2, -⟩ := GetMqttClient_of_success config outcomes 0 hok
  have h3 : ∀ k : String, c.filters k
      = if k ∈ Split config.Topic then some config.Qos else none := by
    intro k
    rw [h2, fillFilters_apply]
    rfl
  refine ⟨c, h1, h3, ?_⟩
  intro k
  rw [h3 k]
  split <;> simp [*]

/-- Witness for C17: the topic list "a,b" at QoS 1, the first connect failing
and the second succeeding. -/
theorem subscribes_every_topic_witness :
    Split "a,b" = ["a", "b"] ∧
    ∃ c, GetMqttClient
        { Username := "u", Password := "p", ClientId := "c", Host := "h", Port := "1883",
          Topic := "a,b", Qos := 1 } 0 [false, true] = some c ∧
      c.filters "a" = some 1 ∧ c.filters "b" = some 1 ∧ c.filters "a,b" = none :=
  have h := subscribes_every_topic
    { Username := "u", Password := "p", ClientId := "c", Host := "h", Port := "1883",
      Topic := "a,b", Qos := 1 } [false, true] (by decide)
  ⟨by decide, h.elim fun c hc =>
    ⟨c, hc.1, (hc.2.1 "a").trans (by decide), (hc.2.1 "b").trans (by decide),
      (hc.2.1 "a,b").trans (by decide)⟩⟩

/-- C18. On connection loss the client makes up to 5 reconnect attempts and
then gives up. For every course of connect outcomes, `onConnectLost` makes at
most 5 `Connect` calls; when the first success is at attempt `k + 1` (with
`k < 5`) it makes exactly `k + 1` calls and ends right after the success line;
when the first five attempts all fail it makes exactly 5 calls. The function
is total, so it returns in every case. -/
theorem reconnect_at_most_five (outcome : Nat → Bool) :
    connectCount (onConnectLost outcome) ≤ 5 ∧
    (∀ k : Nat, k < 5 → outcome k = true → (∀ j : Nat, j < k → outcome j = false) →
      connectCount (onConnectLost outcome) = k + 1 ∧
      (onConnectLost outcome).getLast? = some LostEvent.reconnected) ∧
    ((∀ j : Nat, j < 5 → outcome j = false) →
      connectCount (onConnectLost outcome) = 5) := by
  have hc : connectCount (onConnectLost outcome) = connectCount (reconnectLoop outcome 0) := by
    simp [onConnectLost, connectCount]
  refine ⟨?_, ?_, ?_⟩
  · rw [hc]
    exact connectCount_loop_le outcome 5 0 rfl
  · intro k hk hok hf
    obtain ⟨h1, h2⟩ := reconnectLoop_first_success outcome k hk hok k 0 (by omega)
      (fun j _ h2 => hf j h2)
    refine ⟨by rw [hc, h1], ?_⟩
    cases hl : reconnectLoop outcome 0 with
    | nil => rw [hl] at h2; simp at h2
    | cons e es =>
      rw [hl] at h2
      simpa [onConnectLost, hl, List.getLast?_cons_cons] using h2
  · intro hf
    rw [hc]
    exact connectCount_loop_all_fail outcome 5 0 rfl (fun j _ h2 => hf j h2)

/-- Witness for C18: the third attempt succeeds (3 calls); every attempt fails
(5 calls). -/
theorem reconnect_at_most_five_witness :
    connectCount (onConnectLost fun i => decide (i = 2)) = 3 ∧
    connectCount (onConnectLost fun _ => false) = 5 :=
  ⟨((reconnect_at_most_five fun i => decide (i = 2)).2.1 2 (by decide) (by decide)
      (by decide)).1,
    (reconnect_at_most_five fun _ => false).2.2 (fun _ _ => rfl)⟩

/-- C15. Every access to the control flags happens with the mutex of the task
held. Take any goroutines of the program, each one either the worker loop of a
`Start` or a caller making calls of the methods of `Task` and `TaskManager`,
for any receivers and any flags found, and any schedule that interleaves their
steps. Whenever the next step of a goroutine reads or writes a flag of a task
(or the slice of the manager), that goroutine is the holder of the guarding
mutex, and no other goroutine is about to touch what the same mutex guards:
the accesses to the flags of one task are ordered by its mutex. The steps of
each operation write the flags and produce the effects that the operation has
as a function on tasks. -/
theorem flag_access_holds_mutex (threads : List (List Prim))
    (hth : ∀ th ∈ threads, GoroutineTrace th) (sched : List Nat) (i : Nat) (m : Mutex)
    (hn : ((Conc.init threads).run sched).nextNeeds i = some m) :
    ((Conc.init threads).run sched).owner m = some i ∧
    (∀ j : Nat, ((Conc.init threads).run sched).nextNeeds j = some m → j = i) ∧
    (∀ th ∈ threads, guarded [] th = true) ∧
    (∀ (r : Ref) (t : Task) (o : Op),
      writesOf t (opSteps r t o) = (t.apply o).1 ∧ emitsOf (opSteps r t o) = (t.apply o).2) := by
  have hg : ∀ th ∈ threads, guarded [] th = true :=
    fun th h => goroutineTrace_guarded th (hth th h)
  have hw := wellLocked_run sched _ (wellLocked_init threads hg)
  have h1 := owner_of_nextNeeds _ hw i m hn
  refine ⟨h1, ?_, hg, opSteps_apply⟩
  intro j hj
  have h2 := owner_of_nextNeeds _ hw j m hj
  rw [h1] at h2
  exact (Option.some.inj h2).symm

/-- Witness for C15: a caller that starts and pauses task 1 (at reference 0)
next to the worker of that task; after the caller has taken the mutex and read
the running flag it is about to write it, and it holds the mutex. -/
theorem flag_access_holds_mutex_witness :
    ((Conc.init
        [[opSteps 0 (NewTask 1) Op.start,
          opSteps 0 { id := 1, running := true, stop := false } Op.pause].flatten,
         workerTrace 0 1 [{ id := 1, running := true, stop := false }]]).run
      [1, 0, 1, 0]).owner (Mutex.task 0) = some 0 :=
  (flag_access_holds_mutex
    [[opSteps 0 (NewTask 1) Op.start,
      opSteps 0 { id := 1, running := true, stop := false } Op.pause].flatten,
     workerTrace 0 1 [{ id := 1, running := true, stop := false }]]
    (by
      intro th h
      simp only [List.mem_cons, List.mem_singleton, List.not_mem_nil, or_false] at h
      rcases h with rfl | rfl
      · exact GoroutineTrace.caller _ (by
          intro c hc
          simp only [List.mem_cons, List.mem_singleton, List.not_mem_nil, or_false] at hc
          rcases hc with rfl | rfl
          · exact CallTrace.op _ _ _
          · exact CallTrace.op _ _ _)
      · exact GoroutineTrace.worker _ _ _)
    [1, 0, 1, 0] 0 (Mutex.task 0) (by decide)).1

/-- C16, the claim as stated fails. In `StartAll` of the manager of `main`, the
`Lock` on the mutex of the first task is made while the mutex of the manager
is held. -/
theorem manager_lock_held_across_call :
    acquisitions [] (mainManager.broadcastSteps Op.start mainHeap)
      = [(Mutex.manager, []), (Mutex.task 0, [Mutex.manager]),
         (Mutex.task 1, [Mutex.manager]), (Mutex.task 2, [Mutex.manager])] ∧
    (Mutex.task 0, [Mutex.manager])
      ∈ acquisitions [] (mainManager.broadcastSteps Op.start mainHeap) := by
  decide

/-- C16, amended. The mutex of the manager is held across every call into a
task, and locks are always taken in the order manager, then task. For every
manager, operation and flags found: a broadcast takes the mutex of the manager
while holding nothing, then the mutex of each registered task in turn while
holding the mutex of the manager and no other; `AddTask` takes the mutex of
the manager only; a method of `Task` called on its own and the worker loop
take the mutex of their task only, while holding nothing. So the mutex of the
manager is never taken while a mutex of a task is held, no two mutexes of
tasks are held together, and every step is in order. -/
theorem lock_order_manager_then_task (tm : TaskManager) (o : Op) (seen : Nat → Task) :
    acquisitions [] (tm.broadcastSteps o seen)
      = (Mutex.manager, []) :: tm.tasks.map (fun r => (Mutex.task r, [Mutex.manager])) ∧
    guarded [] (tm.broadcastSteps o seen) = true ∧
    heldAfter [] (tm.broadcastSteps o seen) = [] ∧
    acquisitions [] AddTaskSteps = [(Mutex.manager, [])] ∧
    (∀ (r : Ref) (t : Task) (o2 : Op),
      acquisitions [] (opSteps r t o2) = [(Mutex.task r, [])]) ∧
    (∀ (r : Ref) (id : Int) (seen2 : List Task),
      ∀ a ∈ acquisitions [] (workerTrace r id seen2), a = (Mutex.task r, [])) ∧
    (∀ a ∈ acquisitions [] (tm.broadcastSteps o seen),
      ∀ held ∈ a.2, held = Mutex.manager ∧ a.1 ≠ Mutex.manager) := by
  obtain ⟨h1, h2, h3⟩ := broadcastSteps_locks tm o seen
  refine ⟨h3, h1, h2, by decide, fun r t o2 => (opSteps_locks r t o2 [] (by simp)).2.2, ?_, ?_⟩
  · intro r id seen2 a ha
    have : acquisitions [] (workerTrace r id seen2) = acquisitions [] (workerFrom r true seen2) := by
      simp [workerTrace, acquisitions, Prim.after]
    rw [this] at ha
    exact (workerFrom_locks r seen2).2.1 a ha
  · intro a ha held hheld
    rw [h3] at ha
    simp only [List.mem_cons, List.mem_map] at ha
    rcases ha with rfl | ⟨r, -, rfl⟩
    · simp at hheld
    · simp only [List.mem_singleton] at hheld
      exact ⟨hheld, by simp⟩

end TaskCtl
